import Mathlib

/-!
Formal verification of the CrazyWalk map-generation pipeline.

This file shallowly embeds the graph/geometry pipeline of the repository
(intersection detection, segment tracing with waypoint placement, polygon
extraction, polygon merging with ghost-edge validation, connectivity
enrichment, visibility filtering, and the retrying orchestrator) as
executable Lean definitions over exact rational coordinates, and proves or
refutes the frozen claims about it.

Floating-point numbers are modelled by `ℚ`.  External geometry-library
computations (shapely buffering, unions, areas, centroids, ray casting) and
the haversine/trigonometric kernels are modelled as oracle parameters, since
their values are irrational; every theorem quantifies over these oracles.
-/

namespace CrazyWalk

/-- A coordinate, `(lat, lon)` as exact rationals (model of Python float pairs). -/
abbrev Pt := ℚ × ℚ

/-- Python's `round` on rationals: round half to even (banker's rounding). -/
def pyRound (q : ℚ) : ℤ :=
  if q - (⌊q⌋ : ℚ) < 1/2 then ⌊q⌋
  else if 1/2 < q - (⌊q⌋ : ℚ) then ⌊q⌋ + 1
  else if Even ⌊q⌋ then ⌊q⌋ else ⌊q⌋ + 1

/-- Python's `round(x, 7)` used for cross-stage coordinate comparison. -/
def round7 (q : ℚ) : ℚ := (pyRound (q * 10000000) : ℚ) / 10000000

/-- `round(x, 7)` applied to both components of a coordinate. -/
def round7Pt (p : Pt) : Pt := (round7 p.1, round7 p.2)

/-! ### Intersection detection (`graph_builder.identify_intersections`,
`AB_add_blue_circles.create_blue_circles`)

The Python code folds over the segment list, incrementing a per-coordinate
counter dictionary (`node_counts`) for each segment endpoint and inserting
each endpoint's partner into a per-coordinate adjacency set.  We embed the
counter dictionary as a function `Pt → ℕ` updated by the same fold, plus the
insertion-ordered key list. -/

/-- One segment of road geometry: an ordered endpoint pair. -/
abbrev Seg := Pt × Pt

/-- Increment the counter of one key (one `node_counts[p] += 1` step). -/
def bump (f : Pt → ℕ) (p : Pt) : Pt → ℕ :=
  fun x => if x = p then f x + 1 else f x

/-- The `node_counts` dictionary after folding over all segments:
both endpoints of every segment are counted, duplicates included. -/
def nodeCounts (segs : List Seg) : Pt → ℕ :=
  segs.foldl (fun f s => bump (bump f s.1) s.2) (fun _ => 0)

/-- Keys of `node_counts` in first-insertion order (Python dict iteration
order): every endpoint, deduplicated keeping the first occurrence. -/
def nodeList (segs : List Seg) : List Pt :=
  (segs.flatMap (fun s => [s.1, s.2])).dedup

/-- The adjacency-set dictionary: set of distinct neighbours of a coordinate
(parallel segments between the same pair collapse here). -/
def adjacencySet (segs : List Seg) (p : Pt) : Finset Pt :=
  (segs.foldl
    (fun acc s => if s.1 = p then s.2 :: acc else if s.2 = p then s.1 :: acc else acc)
    []).toFinset

/-- An emitted junction ("blue circle"): its coordinate and its raw
`connections` count.  Random opaque ids are omitted from the model. -/
structure Junction where
  coord : Pt
  connections : ℕ
deriving DecidableEq, Repr

/-- `identify_intersections` / `create_blue_circles`: emit a junction for
every counted coordinate whose `node_counts` value is `≠ 2`. -/
def identifyJunctions (segs : List Seg) : List Junction :=
  ((nodeList segs).filter (fun p => nodeCounts segs p ≠ 2)).map
    (fun p => ⟨p, nodeCounts segs p⟩)

/-- Multiplicity degree of a coordinate: number of segment-endpoint
occurrences (what `node_counts` computes, written declaratively). -/
def segDegree (segs : List Seg) (p : Pt) : ℕ :=
  segs.countP (fun s => decide (s.1 = p)) + segs.countP (fun s => decide (s.2 = p))

/-- Modelled from the spec's words for comparison (claim C6): the
set-semantics degree, i.e. the number of distinct neighbours of a
coordinate, with parallel segments collapsed. -/
def specSetDegree (segs : List Seg) (p : Pt) : ℕ :=
  (adjacencySet segs p).card

/-- The spec-side junction predicate of claim C6: a coordinate that occurs
in some segment and whose set-semantics degree differs from 2. -/
def specIsJunction (segs : List Seg) (p : Pt) : Prop :=
  segDegree segs p ≠ 0 ∧ specSetDegree segs p ≠ 2

instance (segs : List Seg) (p : Pt) : Decidable (specIsJunction segs p) := by
  unfold specIsJunction; infer_instance

/-- The segments of a closed single-loop way over vertex list `pts`:
consecutive pairs, wrapping from the last vertex back to the first. -/
def loopSegs (pts : List Pt) : List Seg := pts.zip (pts.rotate 1)

/-- Concrete input refuting claim C6 as stated: the same segment twice. -/
def dupSegs : List Seg := [(((0:ℚ), (0:ℚ)), ((1:ℚ), (1:ℚ))), (((0:ℚ), (0:ℚ)), ((1:ℚ), (1:ℚ)))]

/-! ### Segment tracing: waypoint ("green circle") placement
(`graph_builder.create_graph_elements`, `AC_create_white_lines.create_white_lines`)

The haversine metric is trigonometric, hence irrational; it enters the model
as an oracle `len : Pt → Pt → ℚ`.  The placement block of the source walks
the traced path's raw sub-hops with a running arc length and an advancing
target index, linearly interpolating each target inside the current hop. -/

/-- A hop-length oracle (models `haversine_distance`). -/
abbrev LenFun := Pt → Pt → ℚ

/-- Lengths of the raw sub-hops of a path, in order. -/
def hopLengths (len : LenFun) : List Pt → List ℚ
  | p :: q :: rest => len p q :: hopLengths len (q :: rest)
  | _ => []

/-- Total traced arc length of a path (the accumulated `dist` of the trace). -/
def pathDist (len : LenFun) (path : List Pt) : ℚ := (hopLengths len path).sum

/-- Linear interpolation between two coordinates (the `nlat`/`nlon` formulas). -/
def lerp (p1 p2 : Pt) (t : ℚ) : Pt :=
  (p1.1 + (p2.1 - p1.1) * t, p1.2 + (p2.2 - p1.2) * t)

/-- `segments = max(1, int(round(dist / 15.0)))`. -/
def numSegments (dist : ℚ) : ℕ := (max 1 (pyRound (dist / 15))).toNat

/-- `targets = [step * k for k in range(1, num)]` with `step = dist / num`. -/
def waypointTargets (dist : ℚ) (num : ℕ) : List ℚ :=
  (List.range' 1 (num - 1)).map (fun (k : ℕ) => dist / (num : ℚ) * (k : ℚ))

/-- The inner `while` loop: place every remaining target that falls inside
the current hop (`curr_dist + seg >= target`), returning the interpolated
points and the still-unplaced targets. -/
def placeInHop (p1 p2 : Pt) (seg currDist : ℚ) : List ℚ → List Pt × List ℚ
  | [] => ([], [])
  | t :: rest =>
      if t ≤ currDist + seg then
        let out := placeInHop p1 p2 seg currDist rest
        (lerp p1 p2 (if 0 < seg then (t - currDist) / seg else 0) :: out.1, out.2)
      else ([], t :: rest)

/-- The outer `for` loop over consecutive path hops, threading the running
arc length and the unplaced targets. -/
def placeLoop (len : LenFun) : List Pt → ℚ → List ℚ → List Pt
  | p1 :: p2 :: rest, currDist, targets =>
      let seg := len p1 p2
      let out := placeInHop p1 p2 seg currDist targets
      out.1 ++ placeLoop len (p2 :: rest) (currDist + seg) out.2
  | _, _, _ => []

/-- The waypoint ("green circle") coordinates the tracer attaches to one
accepted edge with path `path`. -/
def placeWaypoints (len : LenFun) (path : List Pt) : List Pt :=
  let dist := pathDist len path
  let num := numSegments dist
  if 1 < num then placeLoop len path 0 (waypointTargets dist num) else []

/-- Specification-side interpolation: the point at arc length `t` from the
running offset `c`, linearly interpolated inside the first sub-hop whose
cumulative arc-length interval reaches `t`. -/
def interpAt (len : LenFun) : List Pt → ℚ → ℚ → Pt
  | p1 :: p2 :: rest, c, t =>
      if t ≤ c + len p1 p2 then
        lerp p1 p2 (if 0 < len p1 p2 then (t - c) / len p1 p2 else 0)
      else interpAt len (p2 :: rest) (c + len p1 p2) t
  | _, _, _ => (0, 0)

/-! ### Polygon data model and the pairwise merge
(`polygon_processor.PolygonProcessor._merge_two_polygons`)

Shapely geometry (buffering, union, centroid, tube intersection) is
irrational; it enters as the oracle record `MergeOracle`.  Coordinate-order
swaps between `[lat, lon]` and shapely's `(lon, lat)` are absorbed by the
oracles.  A raised shapely exception (the `except` branch returning `None`)
is covered by `unionRing` returning `none`. -/

/-- A traced edge ("white line") as consumed by the polygon stages. -/
structure WLine where
  id : ℤ
  startPt : Pt
  endPt : Pt
  startBC : Option ℕ
  endBC : Option ℕ
  pathPts : List Pt
  green_count : ℕ
deriving DecidableEq, Repr

/-- A polygon record as produced by `find_polygons` / `_merge_two_polygons`.
`label_direction` is omitted: it is oracle-produced and only consumed by
oracles.  The `_largest_original_*` provenance fields are `none` for
unmerged polygons (absent dictionary keys). -/
structure PolyData where
  id : ℕ
  coords : List Pt
  center : Pt
  total_points : ℕ
  boundary_white_lines : List ℤ
  merge_count : ℕ
  largestOrigArea : Option ℚ
  largestOrigCenter : Option Pt
deriving DecidableEq, Repr

/-- Geometry oracles for the merge: `unionRing` is the exterior ring of
`unary_union([a.buffer(eps), b.buffer(eps)]).buffer(-eps)` (largest piece on
a MultiPolygon, `none` when empty or when shapely raises); `ringArea` is the
area of the (possibly `buffer(0)`-repaired) polygon; `centroid` the merged
centroid (already swapped back to `(lat, lon)`); `cover ring ls` the fraction
`boundary_tube.intersection(ls).length / ls.length` of polyline `ls` inside
the tube `ring.boundary.buffer(4.0e-5)`; `newId` the id regenerated from the
rounded centroid string. -/
structure MergeOracle where
  unionRing : List Pt → List Pt → Option (List Pt)
  ringArea : List Pt → ℚ
  centroid : List Pt → Pt
  cover : List Pt → List Pt → ℚ
  newId : Pt → ℕ

/-- The polyline shapely is given for a white line: its stored `path` when
present and nonempty, otherwise the straight start-end segment. -/
def effPath (wl : WLine) : List Pt :=
  if wl.pathPts ≠ [] then wl.pathPts else [wl.startPt, wl.endPt]

/-- Whether a polyline has zero planar length (`ls.length == 0`), i.e. all
its points coincide. -/
def zeroLength (p : List Pt) : Bool :=
  match p with
  | [] => true
  | q :: r => r.all (fun x => decide (x = q))

/-- The ghost-edge re-validation test for one candidate id: the line must be
present in the map, have nonzero length, and have tube coverage above 15%. -/
def keepLine (o : MergeOracle) (wmap : ℤ → Option WLine) (ring : List Pt) (lid : ℤ) : Bool :=
  match wmap lid with
  | none => false
  | some wl =>
      if zeroLength (effPath wl) then false
      else decide (15/100 < o.cover ring (effPath wl))

/-- `lines_a ^ lines_b`: symmetric difference of the two boundary id sets. -/
def mergedCandidates (a b : PolyData) : Finset ℤ :=
  (a.boundary_white_lines.toFinset \ b.boundary_white_lines.toFinset) ∪
    (b.boundary_white_lines.toFinset \ a.boundary_white_lines.toFinset)

/-- `_merge_two_polygons`: geometric union via oracles, provenance tracking
of the largest original polygon, candidate boundary ids as the symmetric
difference, and per-candidate tube re-validation.  The unused
`sharedLine` argument mirrors the source signature (the shared id is dropped
by the symmetric difference, not by explicit removal). -/
def mergeTwoPolygons (o : MergeOracle) (wmap : ℤ → Option WLine)
    (a b : PolyData) (sharedLine : ℤ) : Option PolyData :=
  match o.unionRing a.coords b.coords with
  | none => none
  | some ring =>
      let areaA := a.largestOrigArea.getD (o.ringArea a.coords)
      let areaB := b.largestOrigArea.getD (o.ringArea b.coords)
      let centerA := a.largestOrigCenter.getD a.center
      let centerB := b.largestOrigCenter.getD b.center
      let largestArea := if areaB ≤ areaA then areaA else areaB
      let largestCenter := if areaB ≤ areaA then centerA else centerB
      let validated := (mergedCandidates a b).filter (fun lid => keepLine o wmap ring lid = true)
      let c := o.centroid ring
      some
        { id := o.newId c
          coords := ring
          center := c
          total_points := a.total_points + b.total_points
          boundary_white_lines := validated.sort (· ≤ ·)
          merge_count := a.merge_count + b.merge_count
          largestOrigArea := some largestArea
          largestOrigCenter := some largestCenter }

/-- Concrete merge participants for the C1 witness. -/
def mwA : PolyData :=
  ⟨10, [((0:ℚ), (0:ℚ)), ((0:ℚ), (1:ℚ)), ((1:ℚ), (0:ℚ))], ((0:ℚ), (0:ℚ)), 3, [1, 2], 1, none, none⟩

/-- Concrete merge participants for the C1 witness. -/
def mwB : PolyData :=
  ⟨11, [((0:ℚ), (1:ℚ)), ((1:ℚ), (1:ℚ)), ((1:ℚ), (0:ℚ))], ((1:ℚ), (1:ℚ)), 3, [2, 3], 1, none, none⟩

/-- Concrete geometry oracle for the C1 witness. -/
def mwOracle : MergeOracle :=
  ⟨fun _ _ => some [((0:ℚ), (0:ℚ)), ((0:ℚ), (1:ℚ)), ((1:ℚ), (1:ℚ)), ((1:ℚ), (0:ℚ))],
    fun _ => 1, fun _ => ((1:ℚ)/2, (1:ℚ)/2), fun _ _ => 1, fun _ => 42⟩

/-- Concrete white-line map for the C1 witness. -/
def mwMap : ℤ → Option WLine := fun lid =>
  if lid = 1 then some ⟨1, ((0:ℚ), (0:ℚ)), ((0:ℚ), (1:ℚ)), none, none,
    [((0:ℚ), (0:ℚ)), ((0:ℚ), (1:ℚ))], 0⟩
  else if lid = 2 then some ⟨2, ((0:ℚ), (1:ℚ)), ((1:ℚ), (0:ℚ)), none, none,
    [((0:ℚ), (1:ℚ)), ((1:ℚ), (0:ℚ))], 0⟩
  else if lid = 3 then some ⟨3, ((1:ℚ), (1:ℚ)), ((1:ℚ), (0:ℚ)), none, none,
    [((1:ℚ), (1:ℚ)), ((1:ℚ), (0:ℚ))], 0⟩
  else none

/-- The merged polygon the C1 witness expects. -/
def mwMerged : PolyData :=
  ⟨42, [((0:ℚ), (0:ℚ)), ((0:ℚ), (1:ℚ)), ((1:ℚ), (1:ℚ)), ((1:ℚ), (0:ℚ))],
    ((1:ℚ)/2, (1:ℚ)/2), 6, [1, 3], 2, some 1, some ((0:ℚ), (0:ℚ))⟩

/-! ### The iterative merge pass
(`polygon_processor.PolygonProcessor.merge_small_polygons`)

`geometry_utils.get_blue_lines` returns either the empty set (debug box fits
inside the polygon, or shapely raised) or the full boundary id set (box does
not fit); the geometric containment test is the `boxFits` oracle. -/

/-- `get_blue_lines`: every boundary edge is a merge candidate ("blue") when
the label debug box does not fit inside the polygon, none otherwise. -/
def getBlueLines (boxFits : PolyData → Bool) (p : PolyData) : Finset ℤ :=
  if boxFits p then ∅ else p.boundary_white_lines.toFinset

/-- The `line_to_polys` map: all polygons whose boundary contains a line id,
in list order. -/
def lineToPolys (polys : List PolyData) (lid : ℤ) : List PolyData :=
  polys.filter (fun p => decide (lid ∈ p.boundary_white_lines))

/-- The `blue_lines` dictionary, keyed by polygon id; only polygons with a
nonempty blue set are inserted, and a later polygon with the same id
overwrites an earlier one. -/
def blueLinesById (boxFits : PolyData → Bool) (polys : List PolyData) : ℕ → Finset ℤ :=
  polys.foldl
    (fun acc p =>
      if getBlueLines boxFits p ≠ ∅ then Function.update acc p.id (getBlueLines boxFits p)
      else acc)
    (fun _ => (∅ : Finset ℤ))

/-- `polys_with_blue_lines`: polygons whose id is a key of `blue_lines`. -/
def polysWithBlue (boxFits : PolyData → Bool) (polys : List PolyData) : List PolyData :=
  polys.filter (fun p => decide (blueLinesById boxFits polys p.id ≠ ∅))

/-- `_find_merge_candidate`: scan the polygon's blue ids in sorted order and
return the first other polygon sharing one, with that shared id. -/
def findMergeCandidate (polys : List PolyData) (pid : ℕ) (blue : Finset ℤ) :
    Option (PolyData × ℤ) :=
  (blue.sort (· ≤ ·)).findSome? fun lid =>
    ((lineToPolys polys lid).find? (fun q => decide (q.id ≠ pid))).map (fun q => (q, lid))

/-- The per-iteration mutable state of `merge_small_polygons`. -/
structure MergeIterState where
  mergedIds : Finset ℕ
  removedIds : Finset ℕ
  newPolys : List PolyData
deriving DecidableEq

/-- Processing one polygon of the iteration's input list: skip if already
consumed; if it has blue lines, merge with the found candidate (marking
both), keep it when the geometric merge fails, or remove it as a border
polygon when no usable candidate exists; otherwise keep it. -/
def mergeIterStep (o : MergeOracle) (wmap : ℤ → Option WLine) (boxFits : PolyData → Bool)
    (polys : List PolyData) (st : MergeIterState) (p : PolyData) : MergeIterState :=
  if p.id ∈ st.mergedIds ∨ p.id ∈ st.removedIds then st
  else if blueLinesById boxFits polys p.id ≠ ∅ then
    match findMergeCandidate polys p.id (blueLinesById boxFits polys p.id) with
    | some (nbr, sline) =>
        if nbr.id ∉ st.mergedIds ∧ nbr.id ∉ st.removedIds then
          match mergeTwoPolygons o wmap p nbr sline with
          | some m =>
              ⟨insert nbr.id (insert p.id st.mergedIds), st.removedIds, st.newPolys ++ [m]⟩
          | none => ⟨st.mergedIds, st.removedIds, st.newPolys ++ [p]⟩
        else ⟨st.mergedIds, insert p.id st.removedIds, st.newPolys⟩
    | none => ⟨st.mergedIds, insert p.id st.removedIds, st.newPolys⟩
  else ⟨st.mergedIds, st.removedIds, st.newPolys ++ [p]⟩

/-- One full iteration of the merge loop over the polygon list. -/
def mergeIteration (o : MergeOracle) (wmap : ℤ → Option WLine) (boxFits : PolyData → Bool)
    (polys : List PolyData) : MergeIterState :=
  polys.foldl (mergeIterStep o wmap boxFits polys) ⟨∅, ∅, []⟩

/-- The fuelled iteration driver: stop when no polygon has blue lines, or
when an iteration performs no merge (note the source then returns the
iteration's *input*, discarding that iteration's removals), else continue
with the iteration's output. -/
def mergeLoop (o : MergeOracle) (wmap : ℤ → Option WLine) (boxFits : PolyData → Bool) :
    ℕ → List PolyData → List PolyData
  | 0, polys => polys
  | n + 1, polys =>
      if polysWithBlue boxFits polys = [] then polys
      else
        let st := mergeIteration o wmap boxFits polys
        if st.mergedIds = ∅ then polys
        else mergeLoop o wmap boxFits n st.newPolys

/-- `merge_small_polygons` with its default `max_iterations=10`. -/
def mergeSmallPolygons (o : MergeOracle) (wmap : ℤ → Option WLine)
    (boxFits : PolyData → Bool) (polys : List PolyData) : List PolyData :=
  mergeLoop o wmap boxFits 10 polys

/-- The lone polygon of the C9 counterexample: blue boundary edge 5, no
other polygon to merge with. -/
def borderPoly : PolyData :=
  ⟨1, [((0:ℚ), (0:ℚ)), ((0:ℚ), (1:ℚ)), ((1:ℚ), (0:ℚ))], ((0:ℚ), (0:ℚ)), 3, [5], 1, none, none⟩

/-- Trivial merge oracle for the C9 counterexample (never consulted). -/
def cOracle : MergeOracle :=
  ⟨fun _ _ => none, fun _ => 0, fun _ => ((0:ℚ), (0:ℚ)), fun _ _ => 0, fun _ => 0⟩

/-! ### Polygon extraction
(`polygon_processor.PolygonProcessor.find_polygons`,
`AD_create_polygons.create_polygons`)

`networkx.minimum_cycle_basis` is a third-party algorithm; it enters as the
`cyclesOf` oracle producing the basis cycles (node lists).  Shapely validity
repair, area and centroid are oracles in `ExtractOracle`.  The promo-GIF
assignment of `find_polygons` is external I/O and not part of the graph
model. -/

/-- Geometry oracles of the extractor: area of the (repaired) ring, its
centroid, and the opaque uid generator for new polygons. -/
structure ExtractOracle where
  ringArea : List Pt → ℚ
  centroid : List Pt → Pt
  mkId : List Pt → ℕ

/-- `G.get_edge_data(u, v)` for the graph built by `G.add_edge` over the
white lines keyed by the unordered endpoint pair; a later line with the same
endpoints overwrites an earlier one. -/
def getEdgeData (lines : List WLine) (u v : Pt) : Option WLine :=
  lines.reverse.find? (fun wl =>
    decide ((wl.startPt = u ∧ wl.endPt = v) ∨ (wl.startPt = v ∧ wl.endPt = u)))

/-- Orient one stored polyline to start at `u` and drop its last point
(`path[:-1]` / `path[::-1][:-1]`, with the same straight fallback). -/
def orientSegment (path : List Pt) (u : Pt) : List Pt :=
  if path.head? = some u then path.dropLast
  else if path.getLast? = some u then path.reverse.dropLast
  else path.dropLast

/-- The consecutive node pairs of a closed cycle walk
(`cycle + [cycle[0]]`). -/
def cyclePairs (cycle : List Pt) : List (Pt × Pt) := cycle.zip (cycle.rotate 1)

/-- The edges the cycle walk actually finds in the graph, in walk order. -/
def cycleEdges (lines : List WLine) (cycle : List Pt) : List WLine :=
  (cyclePairs cycle).filterMap (fun uv => getEdgeData lines uv.1 uv.2)

/-- One step of the cycle walk: append the oriented polyline (or the
straight fallback), collect the non-sentinel id, add the green count. -/
def cycleStep (lines : List WLine) (acc : List Pt × Finset ℤ × ℕ) (uv : Pt × Pt) :
    List Pt × Finset ℤ × ℕ :=
  match getEdgeData lines uv.1 uv.2 with
  | none => (acc.1 ++ [uv.1, uv.2], acc.2.1, acc.2.2)
  | some ed =>
      (acc.1 ++ orientSegment ed.pathPts uv.1,
        if ed.id = -1 then acc.2.1 else insert ed.id acc.2.1,
        acc.2.2 + ed.green_count)

/-- Stitch one basis cycle into a polygon: walk consecutive pairs, append
oriented polylines, collect non-sentinel boundary ids, total the green
counts on top of the node count, close the ring, and discard slivers below
2e-9 deg². -/
def polygonOfCycle (orc : ExtractOracle) (lines : List WLine) (cycle : List Pt) :
    Option PolyData :=
  if cycle.length < 3 then none
  else
    let res := (cyclePairs cycle).foldl (cycleStep lines)
      (([] : List Pt), (∅ : Finset ℤ), cycle.length)
    let coords := match res.1 with
      | [] => []
      | c :: rest => (c :: rest) ++ [c]
    if orc.ringArea coords < 2 / 1000000000 then none
    else
      some ⟨orc.mkId coords, coords, orc.centroid coords, res.2.2,
        (res.2.1).sort (· ≤ ·), 1, none, none⟩

/-- `find_polygons` / `create_polygons` over the oracle-provided minimum
cycle basis: the polygon list and the set of boundary ids used by at least
one polygon. -/
def findPolygons (orc : ExtractOracle) (lines : List WLine) (cycles : List (List Pt)) :
    List PolyData × Finset ℤ :=
  let polys := cycles.filterMap (polygonOfCycle orc lines)
  (polys, polys.foldl (fun acc p => acc ∪ p.boundary_white_lines.toFinset) ∅)

/-- The waypoint count a boundary id contributes: the `green_count` of the
white line carrying that id. -/
def greenOfId (lines : List WLine) (lid : ℤ) : ℕ :=
  ((lines.find? (fun wl => decide (wl.id = lid))).map (·.green_count)).getD 0

/-! ### Segment tracing
(`graph_builder.create_graph_elements`) and the orchestrating retry loop
(`LocationPolygonsGenerator.generate_map`, attempts 1-3).

The degree-2 chain walk is embedded with explicit fuel (one more than the
number of adjacency pairs, an upper bound on any chain's length: from a
junction the walk either reaches a node of degree ≠ 2, another junction, or
returns to its starting junction and stops). -/

/-- A blue circle as consumed by the tracer: opaque id, coordinate, raw
degree. -/
structure BC0 where
  id : ℕ
  coord : Pt
  connections : ℕ
deriving DecidableEq, Repr

/-- A waypoint record (`green_circles` entry): coordinate and parent line. -/
structure GreenC where
  coord : Pt
  line_id : ℤ
deriving DecidableEq, Repr

/-- Lexicographic tuple comparison (Python's sort order on coordinate
tuples). -/
def ptLeB (a b : Pt) : Bool :=
  decide (a.1 < b.1) || (decide (a.1 = b.1) && decide (a.2 ≤ b.2))

/-- `sorted(...)` on coordinate tuples. -/
def sortPts (l : List Pt) : List Pt := l.mergeSort ptLeB

/-- `tuple(sorted((u, v)))`: the unordered edge key. -/
def sortPair (u v : Pt) : Pt × Pt := if ptLeB u v then (u, v) else (v, u)

/-- The adjacency set of a node rebuilt from the serialized pair list
(both directions, set semantics). -/
def adjNbrs (adj : List (Pt × Pt)) (p : Pt) : List Pt :=
  (((adj.filter (fun e => decide (e.1 = p))).map Prod.snd)
    ++ ((adj.filter (fun e => decide (e.2 = p))).map Prod.fst)).dedup

/-- The serialized adjacency edge list: segments deduplicated by unordered
endpoint pair (matching `identify_intersections`' `adj_list` export up to
per-pair orientation, which the symmetric `adjNbrs` ignores). -/
def adjPairs (segs : List Seg) : List (Pt × Pt) :=
  (segs.map (fun s => sortPair s.1 s.2)).dedup

/-- The degree-2 chain walk of the tracer: extend while the current node is
not a junction and has exactly two neighbours, marking traversed edges
visited; returns the path, accumulated length, visited set and final node. -/
def traceWalk (len : LenFun) (adj : List (Pt × Pt)) (relevant : List Pt) :
    ℕ → Pt → Pt → List Pt → ℚ → Finset (Pt × Pt) →
      List Pt × ℚ × Finset (Pt × Pt) × Pt
  | 0, curr, _, path, dist, visited => (path, dist, visited, curr)
  | fuel + 1, curr, prev, path, dist, visited =>
      if curr ∉ relevant ∧ (adjNbrs adj curr).length = 2 then
        match (adjNbrs adj curr).find? (fun n => decide (n ≠ prev)) with
        | some nxt =>
            traceWalk len adj relevant fuel nxt curr (path ++ [nxt])
              (dist + len curr nxt) (insert (sortPair curr nxt) visited)
        | none => (path, dist, visited, curr)
      else (path, dist, visited, curr)

/-- `create_graph_elements`: trace from every junction along every unvisited
neighbour; accept only traces ending at a different junction; attach the
interpolated waypoints.  `lineId` models `generate_uid` for the n-th
accepted line. -/
def createGraphElements (len : LenFun) (lineId : ℕ → ℤ) (bcs : List BC0)
    (adj : List (Pt × Pt)) : List WLine × List GreenC :=
  let relevant := bcs.map (·.coord)
  let coordToId : Pt → Option ℕ :=
    fun p => (bcs.reverse.find? (fun b => decide (b.coord = p))).map (·.id)
  let res := (sortPts relevant).foldl
    (fun (st : Finset (Pt × Pt) × List WLine × List GreenC) start =>
      if (adjNbrs adj start).isEmpty then st
      else
        (sortPts (adjNbrs adj start)).foldl
          (fun st2 nbr =>
            let ekey := sortPair start nbr
            if ekey ∈ st2.1 then st2
            else
              let w := traceWalk len adj relevant (adj.length + 1) nbr start
                [start, nbr] (len start nbr) st2.1
              let visited := insert ekey w.2.2.1
              let curr := w.2.2.2
              if curr ∈ relevant ∧ curr ≠ start then
                let wl : WLine := ⟨lineId st2.2.1.length, start, curr, coordToId start,
                  coordToId curr, w.1, 0⟩
                let num := numSegments w.2.1
                if 1 < num then
                  let pts := placeLoop len w.1 0 (waypointTargets w.2.1 num)
                  (visited, st2.2.1 ++ [{ wl with green_count := pts.length }],
                    st2.2.2 ++ pts.map (fun c => ⟨c, wl.id⟩))
                else (visited, st2.2.1 ++ [wl], st2.2.2)
              else (visited, st2.2.1, st2.2.2))
          st)
    ((∅ : Finset (Pt × Pt)), ([] : List WLine), ([] : List GreenC))
  (res.2.1, res.2.2)

/-- The consecutive-pair segments the core extracts from the fetched ways. -/
def waysToSegs (ways : List (List Pt)) : List Seg :=
  ways.flatMap (fun w => w.zip w.tail)

/-- The structured outcome of `generate_map`: the two failure dictionaries
(with exactly the data their messages interpolate) or the step-4 bundle on
success (later enrichment stages are outside this claim's scope). -/
inductive MapResult where
  | noRoads (lat lon : ℚ) (maxMeters : ℤ)
  | noPolygons (lat lon : ℚ) (attempts : ℕ)
  | success (polys : List PolyData) (lines : List WLine) (bcs : List BC0) (gcs : List GreenC)
deriving DecidableEq

/-- The fixed retry region sizes `[0.0015, 0.005, 0.01]`. -/
def REGION_SIZES : List ℚ := [15/10000, 5/1000, 1/100]

/-- `int(size * 111000)` (truncation = floor for these positive sizes). -/
def sizeMeters (size : ℚ) : ℤ := ⌊size * 111000⌋

/-- Steps 2-4 of one attempt: junctions, traced lines with waypoints, and
polygons from the oracle-provided cycle basis. -/
def attemptPipeline (len : LenFun) (bcId : Pt → ℕ) (lineId : ℕ → ℤ)
    (orc : ExtractOracle) (cyclesOf : List WLine → List (List Pt))
    (ways : List (List Pt)) :
    List PolyData × List WLine × List BC0 × List GreenC :=
  let segs := waysToSegs ways
  let bcs := (identifyJunctions segs).map (fun j => (⟨bcId j.coord, j.coord, j.connections⟩ : BC0))
  let adj := adjPairs segs
  let lg := createGraphElements len lineId bcs adj
  let pu := findPolygons orc lg.1 (cyclesOf lg.1)
  (pu.1, lg.1, bcs, lg.2)

/-- The retry loop of `generate_map` over the enumerated region sizes:
no roads on the final attempt yields `NO_ROADS` with `~{meters}m` in the
message; no polygons on the final attempt yields `NO_POLYGONS`, whose
message carries only the attempt count. -/
def generateAttempts (len : LenFun) (bcId : Pt → ℕ) (lineId : ℕ → ℤ)
    (orc : ExtractOracle) (cyclesOf : List WLine → List (List Pt))
    (lat lon : ℚ) (fetch : ℚ → List (List Pt)) : List (ℕ × ℚ) → MapResult
  | [] => MapResult.noPolygons lat lon 3
  | (_, size) :: rest =>
      if fetch size = [] then
        if rest ≠ [] then
          generateAttempts len bcId lineId orc cyclesOf lat lon fetch rest
        else MapResult.noRoads lat lon (sizeMeters size)
      else
        let r := attemptPipeline len bcId lineId orc cyclesOf (fetch size)
        if r.1 = [] then
          if rest ≠ [] then
            generateAttempts len bcId lineId orc cyclesOf lat lon fetch rest
          else MapResult.noPolygons lat lon 3
        else MapResult.success r.1 r.2.1 r.2.2.1 r.2.2.2

/-- `generate_map` (lines 516-557): the three enumerated attempts. -/
def generateMap (len : LenFun) (bcId : Pt → ℕ) (lineId : ℕ → ℤ)
    (orc : ExtractOracle) (cyclesOf : List WLine → List (List Pt))
    (lat lon : ℚ) (fetch : ℚ → List (List Pt)) : MapResult :=
  generateAttempts len bcId lineId orc cyclesOf lat lon fetch
    ([1, 2, 3].zip REGION_SIZES)

/-- Modelled from the spec: a failure result "carries the attempted region
size" when the region's meter extent is interpolated into its message —
true for `NO_ROADS` (`... max region ~{meters}m`), false for `NO_POLYGONS`
(`... after 3 attempts`, no size).  Success results are not failures and
carry the full bundle. -/
def carriesRegionSize : MapResult → Prop
  | MapResult.noRoads _ _ _ => True
  | MapResult.noPolygons _ _ _ => False
  | MapResult.success _ _ _ _ => True

/-- The triangle way of Scenario C: a single closed three-vertex loop. -/
def triWays : List (List Pt) :=
  [[((0:ℚ), (0:ℚ)), ((0:ℚ), (1:ℚ)), ((1:ℚ), (0:ℚ)), ((0:ℚ), (0:ℚ))]]

/-- Witness for C7's formula at a concrete triangle cycle whose three edges
carry one waypoint each: `total_points = 3 + 3`. -/
def twLines : List WLine :=
  [⟨1, ((0:ℚ), (0:ℚ)), ((0:ℚ), (1:ℚ)), none, none, [((0:ℚ), (0:ℚ)), ((0:ℚ), (1:ℚ))], 1⟩,
    ⟨2, ((0:ℚ), (1:ℚ)), ((1:ℚ), (0:ℚ)), none, none, [((0:ℚ), (1:ℚ)), ((1:ℚ), (0:ℚ))], 1⟩,
    ⟨3, ((1:ℚ), (0:ℚ)), ((0:ℚ), (0:ℚ)), none, none, [((1:ℚ), (0:ℚ)), ((0:ℚ), (0:ℚ))], 1⟩]

/-- Concrete extractor oracle for the C7 witness. -/
def twOracle : ExtractOracle := ⟨fun _ => 1, fun _ => ((0:ℚ), (0:ℚ)), fun _ => 7⟩

/-- The triangle cycle of the C7 witness. -/
def twCycle : List Pt := [((0:ℚ), (0:ℚ)), ((0:ℚ), (1:ℚ)), ((1:ℚ), (0:ℚ))]

/-- The polygon the C7 witness expects from the triangle cycle. -/
def twP : PolyData :=
  ⟨7, [((0:ℚ), (0:ℚ)), ((0:ℚ), (1:ℚ)), ((1:ℚ), (0:ℚ)), ((0:ℚ), (0:ℚ))],
    ((0:ℚ), (0:ℚ)), 6, [1, 2, 3], 1, none, none⟩

/-- Pipeline oracles for the C8 counterexample (one acyclic road segment:
the cycle basis is empty). -/
def c8Oracle : ExtractOracle := ⟨fun _ => 1, fun _ => ((0:ℚ), (0:ℚ)), fun _ => 0⟩

/-- The single open road segment fed to every attempt of the C8
counterexample. -/
def c8Ways : List (List Pt) := [[((0:ℚ), (0:ℚ)), ((0:ℚ), (1:ℚ))]]

/-! ### Connectivity enrichment (`graph_enricher.enrich_graph_elements`)

The enricher recomputes each blue circle's active degree and line list from
the accepted white lines, links polygons to blue circles through the rounded
endpoints of their boundary lines, computes the display stats and the
saturation flag, links polygons to white lines and green circles, and
sanitizes all polygon references against the final polygon id set.  The
trailing per-polygon neighbour display stats (source lines 184-220) write
only presentation fields on the polygons and are not part of the claims'
scope; the polygon list passes through unchanged here. -/

/-- An enriched blue circle. -/
structure EBlue where
  id : ℕ
  lat : ℚ
  lon : ℚ
  connections : ℕ
  active_connections : ℕ
  connected_white_lines : List ℤ
  connected_polygon_ids : List ℕ
  connected_polygons_count : ℕ
  stats_connected_lines : ℕ
  stats_not_connected_lines : ℕ
  stats_connected_polygons : ℕ
  stats_not_connected_polygons : ℕ
  is_saturated : Bool
deriving DecidableEq, Repr

/-- An enriched white line (the traced line plus polygon links and stats). -/
structure EWhite where
  wl : WLine
  connected_polygon_ids : List ℕ
  connected_polygons_count : ℕ
  stats_connected_polygons : ℕ
  stats_not_connected_polygons : ℕ
deriving DecidableEq, Repr

/-- An enriched green circle. -/
structure EGreen where
  gc : GreenC
  connected_polygon_ids : List ℕ
  connected_polygons_count : ℕ
  stats_connected_polygons : ℕ
  stats_not_connected_polygons : ℕ
deriving DecidableEq, Repr

/-- The `wl_node_data` count at a node: every white line contributes one per
matching endpoint (a self-loop contributes twice). -/
def activeConnections (lines : List WLine) (n : Pt) : ℕ :=
  lines.countP (fun wl => decide (wl.startPt = n))
    + lines.countP (fun wl => decide (wl.endPt = n))

/-- The `wl_node_data` line-id list at a node, in sweep order. -/
def nodeLineIds (lines : List WLine) (n : Pt) : List ℤ :=
  lines.flatMap (fun wl =>
    (if wl.startPt = n then [wl.id] else []) ++ (if wl.endPt = n then [wl.id] else []))

/-- Whether a polygon links to blue-circle id `bcid`: some boundary line
(looked up by id, last write winning) has an endpoint whose rounded
coordinate maps to `bcid` in `coord_to_bc_id`. -/
def polyTouchesBc (lineMap : ℤ → Option WLine) (coordToBc : Pt → Option ℕ) (bcid : ℕ)
    (poly : PolyData) : Bool :=
  poly.boundary_white_lines.any (fun lid =>
    match lineMap lid with
    | some wl =>
        decide (coordToBc (round7Pt wl.startPt) = some bcid)
          || decide (coordToBc (round7Pt wl.endPt) = some bcid)
    | none => false)

/-- `coord_to_bc_id` over the active blue circles (a later circle with the
same rounded coordinate overwrites an earlier one). -/
def coordToBcId (bcs1 : List BC0) : Pt → Option ℕ :=
  fun key => (bcs1.reverse.find? (fun b => decide (round7Pt b.coord = key))).map (·.id)

/-- `line_map` (`{wl['id']: wl}`, last write winning). -/
def lineMapOf (lines : List WLine) : ℤ → Option WLine :=
  fun lid => lines.reverse.find? (fun wl => decide (wl.id = lid))

/-- The `bc_poly_map` entry for blue-circle id `bcid`, as a set of polygon
ids. -/
def bcTouchSet (lines : List WLine) (polys : List PolyData) (bcs1 : List BC0)
    (bcid : ℕ) : Finset ℕ :=
  ((polys.filter (polyTouchesBc (lineMapOf lines) (coordToBcId bcs1) bcid)).map (·.id)).toFinset

/-- Blue-circle enrichment: drop zero-active circles, link polygons through
rounded boundary endpoints, compute display stats and the saturation flag
(`active_connections == connected_polygons_count and active_connections > 0`),
then sanitize the polygon references against the final polygon ids. -/
def enrichBlue (lines : List WLine) (polys : List PolyData) (bcs : List BC0) : List EBlue :=
  let bcs1 := bcs.filter (fun bc => decide (0 < activeConnections lines bc.coord))
  let valid := polys.map (·.id)
  bcs1.map (fun bc =>
    let act := activeConnections lines bc.coord
    let touched := (bcTouchSet lines polys bcs1 bc.id).sort (· ≤ ·)
    let cnt := touched.length
    let scl0 := cnt * 2
    let scl := if bc.connections < scl0 then bc.connections else scl0
    let sanitized := touched.filter (fun pid => decide (pid ∈ valid))
    { id := bc.id
      lat := bc.coord.1
      lon := bc.coord.2
      connections := bc.connections
      active_connections := act
      connected_white_lines := nodeLineIds lines bc.coord
      connected_polygon_ids := sanitized
      connected_polygons_count := sanitized.length
      stats_connected_lines := scl
      stats_not_connected_lines := bc.connections - scl
      stats_connected_polygons := cnt
      stats_not_connected_polygons := bc.connections - cnt
      is_saturated := decide (act = cnt ∧ 0 < act) })

/-- The `wl_poly_map` entry for a line id: the distinct polygons whose
boundary contains it. -/
def wlPolySet (polys : List PolyData) (lid : ℤ) : Finset ℕ :=
  ((polys.filter (fun p => decide (lid ∈ p.boundary_white_lines))).map (·.id)).toFinset

/-- White-line enrichment: polygon links, display stats, sanitization. -/
def enrichWhite (polys : List PolyData) (lines : List WLine) : List EWhite :=
  let valid := polys.map (·.id)
  lines.map (fun wl =>
    let s := (wlPolySet polys wl.id).sort (· ≤ ·)
    let cnt := s.length
    let sanitized := s.filter (fun pid => decide (pid ∈ valid))
    { wl := wl
      connected_polygon_ids := sanitized
      connected_polygons_count := sanitized.length
      stats_connected_polygons := cnt
      stats_not_connected_polygons := 2 - cnt })

/-- Green-circle enrichment: inherit the parent line's polygon links when
the parent id is truthy and present, else the isolated defaults. -/
def enrichGreen (polys : List PolyData) (lines : List WLine) (gcs : List GreenC) : List EGreen :=
  let valid := polys.map (·.id)
  gcs.map (fun gc =>
    if gc.line_id ≠ 0 ∧ gc.line_id ∈ lines.map (·.id) then
      let s := (wlPolySet polys gc.line_id).sort (· ≤ ·)
      let cnt := s.length
      let sanitized := s.filter (fun pid => decide (pid ∈ valid))
      { gc := gc
        connected_polygon_ids := sanitized
        connected_polygons_count := sanitized.length
        stats_connected_polygons := cnt
        stats_not_connected_polygons := 2 - cnt }
    else
      { gc := gc
        connected_polygon_ids := []
        connected_polygons_count := 0
        stats_connected_polygons := 0
        stats_not_connected_polygons := 2 })

/-- `enrich_graph_elements`: the four enriched collections (polygons pass
through; their trailing display fields are outside the claims' scope). -/
def enrichGraphElements (polys : List PolyData) (lines : List WLine)
    (bcs : List BC0) (gcs : List GreenC) :
    List PolyData × List EWhite × List EBlue × List EGreen :=
  (polys, enrichWhite polys lines, enrichBlue lines polys bcs, enrichGreen polys lines gcs)

/-- Concrete white lines of the C4 counterexample: a triangle whose corner
`(0,0)` meets edges 1 and 2. -/
def c4Lines : List WLine :=
  [⟨1, ((0:ℚ), (0:ℚ)), ((0:ℚ), (1:ℚ)), none, none, [((0:ℚ), (0:ℚ)), ((0:ℚ), (1:ℚ))], 0⟩,
    ⟨2, ((0:ℚ), (0:ℚ)), ((1:ℚ), (0:ℚ)), none, none, [((0:ℚ), (0:ℚ)), ((1:ℚ), (0:ℚ))], 0⟩,
    ⟨3, ((0:ℚ), (1:ℚ)), ((1:ℚ), (0:ℚ)), none, none, [((0:ℚ), (1:ℚ)), ((1:ℚ), (0:ℚ))], 0⟩]

/-- The single triangle polygon of the C4 counterexample. -/
def c4Polys : List PolyData :=
  [⟨100, [((0:ℚ), (0:ℚ)), ((0:ℚ), (1:ℚ)), ((1:ℚ), (0:ℚ)), ((0:ℚ), (0:ℚ))],
    ((0:ℚ), (0:ℚ)), 3, [1, 2, 3], 1, none, none⟩]

/-- The corner junction of the C4 counterexample. -/
def c4Bcs : List BC0 := [⟨7, ((0:ℚ), (0:ℚ)), 2⟩]

/-- Modelled from the claim's words: every active edge of the junction at
`n` (an accepted line having `n` as an endpoint) lies on some tallied
polygon's boundary. -/
def specAllActiveTallied (lines : List WLine) (polys : List PolyData) (n : Pt) : Bool :=
  lines.all (fun wl =>
    !(decide (wl.startPt = n) || decide (wl.endPt = n))
      || polys.any (fun p => decide (wl.id ∈ p.boundary_white_lines)))

/-- The enriched corner junction the C4 witness expects. -/
def c4Eb : EBlue := ⟨7, 0, 0, 2, 2, [1, 2], [100], 1, 2, 0, 1, 1, false⟩

/-- The shared edge of the C5 counterexample. -/
def c5Lines : List WLine :=
  [⟨9, ((0:ℚ), (0:ℚ)), ((0:ℚ), (1:ℚ)), none, none, [((0:ℚ), (0:ℚ)), ((0:ℚ), (1:ℚ))], 0⟩]

/-- Three polygons all referencing edge 9 (as the enricher accepts). -/
def c5Polys : List PolyData :=
  [⟨1, [], ((0:ℚ), (0:ℚ)), 0, [9], 1, none, none⟩,
    ⟨2, [], ((0:ℚ), (0:ℚ)), 0, [9], 1, none, none⟩,
    ⟨3, [], ((0:ℚ), (0:ℚ)), 0, [9], 1, none, none⟩]

/-- Two polygons sharing edge 9, for the C5 witness. -/
def c5wPolys : List PolyData :=
  [⟨1, [], ((0:ℚ), (0:ℚ)), 0, [9], 1, none, none⟩,
    ⟨2, [], ((0:ℚ), (0:ℚ)), 0, [9], 1, none, none⟩]

/-- The enriched edge the C5 witness expects. -/
def c5wEw : EWhite :=
  ⟨⟨9, ((0:ℚ), (0:ℚ)), ((0:ℚ), (1:ℚ)), none, none, [((0:ℚ), (0:ℚ)), ((0:ℚ), (1:ℚ))], 0⟩,
    [1, 2], 2, 2, 0⟩

/-! ### Visibility filtering (`map_filter.MapFilter.filter_data`)

The nearest-entity scans compare `((dx)**2 + (dy)**2) ** 0.5`; the float
square root enters as the oracle `sqrtA`.  Ids here are numeric, so the
source's truthiness tests on ids (`if nearest_gc.get('line_id'):`) are
modelled as `≠ 0`; the `'stats_connected_polygons' in ...` key-presence
tests are always true for dictionaries that passed enrichment, which the
record types make intrinsic. -/

/-- The strict-minimum scan (`dist < min_dist` starting from infinity). -/
def nearestBy {α : Type} (dist : α → ℚ) (l : List α) : Option α :=
  (l.foldl
    (fun acc x =>
      match acc with
      | none => some (dist x, x)
      | some (d, y) => if dist x < d then some (dist x, x) else some (d, y))
    none).map Prod.snd

/-- Anchor resolution: the restore list verbatim in `initial` mode, else the
polygons linked to the nearest green circle (initial) or blue circle
(expand). -/
def resolveAnchor (sqrtA : ℚ → ℚ) (mode : String) (lat lon : ℚ) (restored : List ℕ)
    (bcs : List EBlue) (gcs : List EGreen) : Option (Finset ℕ) :=
  if mode = "initial" then
    if restored ≠ [] then some restored.toFinset
    else
      match nearestBy
        (fun gc => sqrtA ((gc.gc.coord.1 - lat) ^ 2 + (gc.gc.coord.2 - lon) ^ 2)) gcs with
      | none => none
      | some gc =>
          if gc.gc.line_id ≠ 0 then
            if gc.connected_polygon_ids ≠ [] then some gc.connected_polygon_ids.toFinset
            else none
          else none
  else if mode = "expand" then
    match nearestBy (fun bc => sqrtA ((bc.lat - lat) ^ 2 + (bc.lon - lon) ^ 2)) bcs with
    | none => none
    | some bc =>
        if bc.connected_polygon_ids ≠ [] then some bc.connected_polygon_ids.toFinset
        else none
  else none

/-- Kept polygons: those whose id lies in the anchor set. -/
def filtPolys (anchor : Finset ℕ) (polys : List PolyData) : List PolyData :=
  polys.filter (fun p => decide (p.id ∈ anchor))

/-- One step of the `visible_line_ids.update(...)` accumulation. -/
def bwlUnion (acc : Finset ℤ) (p : PolyData) : Finset ℤ :=
  acc ∪ p.boundary_white_lines.toFinset

/-- Boundary-line ids of the kept polygons (`visible_line_ids`). -/
def visLineIds (anchor : Finset ℕ) (polys : List PolyData) : Finset ℤ :=
  (filtPolys anchor polys).foldl bwlUnion ∅

/-- Kept white lines before the stats pass (`filtered_white_lines`). -/
def filtLines0 (anchor : Finset ℕ) (polys : List PolyData) (lines : List EWhite) :
    List EWhite :=
  lines.filter (fun wl => decide (wl.wl.id ∈ visLineIds anchor polys))

/-- `filtered_polygon_ids`. -/
def filtPolyIds (anchor : Finset ℕ) (polys : List PolyData) : Finset ℕ :=
  ((filtPolys anchor polys).map (·.id)).toFinset

/-- One step of the `visible_blue_circle_ids` accumulation: insert the truthy
endpoint ids of a kept line. -/
def bcIdInsert (acc : Finset ℕ) (wl : EWhite) : Finset ℕ :=
  let acc1 := match wl.wl.startBC with
    | some i => insert i acc
    | none => acc
  match wl.wl.endBC with
  | some i => insert i acc1
  | none => acc1

/-- `visible_blue_circle_ids`: endpoints of kept white lines. -/
def visBcIds (anchor : Finset ℕ) (polys : List PolyData) (lines : List EWhite) :
    Finset ℕ :=
  (filtLines0 anchor polys lines).foldl bcIdInsert ∅

/-- The in-place stats recalculation on a kept blue circle
(map_filter.py lines 101-128). -/
def updBc (fpids : Finset ℕ) (vlids : Finset ℤ) (bc : EBlue) : EBlue :=
  let visPids := bc.connected_polygon_ids.filter (fun pid => decide (pid ∈ fpids))
  let visLines := bc.connected_white_lines.filter (fun lid => decide (lid ∈ vlids))
  { bc with
    connected_polygon_ids := visPids
    connected_polygons_count := visPids.length
    stats_connected_polygons := visPids.length
    stats_connected_lines := visLines.length
    stats_not_connected_lines := bc.connections - visLines.length
    stats_not_connected_polygons := bc.connections - visPids.length
    is_saturated := decide (bc.connections - visPids.length = 0
      ∧ bc.connections - visLines.length = 0 ∧ 0 < visLines.length) }

/-- The in-place sanitation on a kept green circle (lines 134-142). -/
def updGc (fpids : Finset ℕ) (gc : EGreen) : EGreen :=
  let visPids := gc.connected_polygon_ids.filter (fun pid => decide (pid ∈ fpids))
  { gc with
    connected_polygon_ids := visPids
    connected_polygons_count := visPids.length
    stats_connected_polygons := visPids.length
    stats_not_connected_polygons := 2 - visPids.length }

/-- The in-place connection update on a kept white line (lines 147-155). -/
def updWl (fpids : Finset ℕ) (wl : EWhite) : EWhite :=
  let visPids := wl.connected_polygon_ids.filter (fun pid => decide (pid ∈ fpids))
  { wl with
    connected_polygon_ids := visPids
    connected_polygons_count := visPids.length
    stats_connected_polygons := visPids.length
    stats_not_connected_polygons := 2 - visPids.length }

/-- The kept-anchor branch of `filter_data`: restrict each entity class and
recompute its polygon-reference fields against the kept universe. -/
def applyFilter (anchor : Finset ℕ) (polys : List PolyData) (lines : List EWhite)
    (bcs : List EBlue) (gcs : List EGreen) :
    List PolyData × List EWhite × List EBlue × List EGreen :=
  (filtPolys anchor polys,
   (filtLines0 anchor polys lines).map (updWl (filtPolyIds anchor polys)),
   (bcs.filter (fun bc => decide (bc.id ∈ visBcIds anchor polys lines))).map
     (updBc (filtPolyIds anchor polys) (visLineIds anchor polys)),
   (gcs.filter (fun gc => decide (gc.gc.line_id ∈ visLineIds anchor polys))).map
     (updGc (filtPolyIds anchor polys)))

/-- `MapFilter.filter_data`: no-op guard for foreign modes or an empty
polygon list, anchor resolution, then the restriction pass; the inputs pass
through unchanged when no nonempty anchor resolves. -/
def filterData (sqrtA : ℚ → ℚ) (mode : String) (lat lon : ℚ) (restored : List ℕ)
    (polys : List PolyData) (lines : List EWhite) (bcs : List EBlue) (gcs : List EGreen) :
    List PolyData × List EWhite × List EBlue × List EGreen :=
  if (mode ≠ "initial" ∧ mode ≠ "expand") ∨ polys = [] then (polys, lines, bcs, gcs)
  else
    match resolveAnchor sqrtA mode lat lon restored bcs gcs with
    | some anchor =>
        if anchor ≠ ∅ then applyFilter anchor polys lines bcs gcs
        else (polys, lines, bcs, gcs)
    | none => (polys, lines, bcs, gcs)

/-- Concrete polygon, line, junction and waypoint for the C3 witness. -/
def c3Poly : PolyData := ⟨1, [], (0, 0), 0, [10], 1, none, none⟩

def c3Wl : EWhite := ⟨⟨10, (0, 0), (0, 1), some 7, some 7, [], 0⟩, [1], 1, 1, 1⟩

def c3Bc : EBlue := ⟨7, 0, 0, 2, 2, [10], [1], 1, 2, 0, 1, 1, false⟩

def c3Gc : EGreen := ⟨⟨(0, 1/2), 10⟩, [1], 1, 1, 1⟩

/-- Concrete polygon for the C10 witness. -/
def c10Poly : PolyData := ⟨1, [], (0, 0), 0, [], 1, none, none⟩

/-! ### Theorems -/

/-- Evaluating one counter increment. -/
theorem bump_apply (f : Pt → ℕ) (q p : Pt) :
    bump f q p = if p = q then f p + 1 else f p := rfl

/-- The fold computing `node_counts` computes the multiplicity degree. -/
theorem nodeCounts_eq_segDegree (segs : List Seg) (p : Pt) :
    nodeCounts segs p = segDegree segs p := by
  suffices h : ∀ (f : Pt → ℕ) (l : List Seg),
      l.foldl (fun f s => bump (bump f s.1) s.2) f p
        = f p + (l.countP (fun s => decide (s.1 = p)) + l.countP (fun s => decide (s.2 = p))) by
    simpa [nodeCounts, segDegree] using h (fun _ => 0) segs
  intro f l
  induction l generalizing f with
  | nil => simp
  | cons s t ih =>
      simp only [List.foldl_cons, ih, List.countP_cons, bump_apply]
      split_ifs <;> simp_all <;> omega

/-- The multiplicity degree vanishes exactly when no segment touches `p`. -/
theorem segDegree_eq_zero_iff (segs : List Seg) (p : Pt) :
    segDegree segs p = 0 ↔ ∀ s ∈ segs, ¬(p = s.1 ∨ p = s.2) := by
  unfold segDegree
  rw [Nat.add_eq_zero, List.countP_eq_zero, List.countP_eq_zero]
  constructor
  · rintro ⟨hA, hB⟩ s hs (hp | hp)
    · have h := hA s hs
      simp only [decide_eq_true_eq] at h
      exact h hp.symm
    · have h := hB s hs
      simp only [decide_eq_true_eq] at h
      exact h hp.symm
  · intro h
    constructor
    · intro s hs
      simp only [decide_eq_true_eq]
      intro he
      exact h s hs (Or.inl he.symm)
    · intro s hs
      simp only [decide_eq_true_eq]
      intro he
      exact h s hs (Or.inr he.symm)

/-- A coordinate is in the key list iff its multiplicity degree is nonzero. -/
theorem mem_nodeList_iff (segs : List Seg) (p : Pt) :
    p ∈ nodeList segs ↔ segDegree segs p ≠ 0 := by
  have h1 : p ∈ nodeList segs ↔ ∃ s ∈ segs, p = s.1 ∨ p = s.2 := by
    unfold nodeList
    rw [List.mem_dedup, List.mem_flatMap]
    constructor
    · rintro ⟨s, hs, hp⟩
      rcases List.mem_cons.mp hp with h | h
      · exact ⟨s, hs, Or.inl h⟩
      · exact ⟨s, hs, Or.inr (by simpa using h)⟩
    · rintro ⟨s, hs, h | h⟩
      · exact ⟨s, hs, by simp [h]⟩
      · exact ⟨s, hs, by simp [h]⟩
  rw [h1]
  constructor
  · rintro ⟨s, hs, hp⟩ h0
    exact (segDegree_eq_zero_iff segs p).mp h0 s hs hp
  · intro h0
    by_contra hc
    push_neg at hc
    refine h0 ((segDegree_eq_zero_iff segs p).mpr ?_)
    rintro s hs (hp | hp)
    · exact (hc s hs).1 hp
    · exact (hc s hs).2 hp

/-- The multiplicity degree of a coordinate in a closed loop is twice the
number of occurrences of that coordinate among the loop's vertices. -/
theorem segDegree_loopSegs (pts : List Pt) (p : Pt) :
    segDegree (loopSegs pts) p = 2 * pts.countP (fun q => decide (q = p)) := by
  have hlen : pts.length ≤ (pts.rotate 1).length := by simp
  have hlen' : (pts.rotate 1).length ≤ pts.length := by simp
  have h1 : (pts.zip (pts.rotate 1)).countP (fun s => decide (s.1 = p))
      = pts.countP (fun q => decide (q = p)) := by
    have h := List.countP_map (fun q => decide (q = p)) Prod.fst (pts.zip (pts.rotate 1))
    rw [List.map_fst_zip _ _ hlen] at h
    rw [h]
    rfl
  have h2 : (pts.zip (pts.rotate 1)).countP (fun s => decide (s.2 = p))
      = (pts.rotate 1).countP (fun q => decide (q = p)) := by
    have h := List.countP_map (fun q => decide (q = p)) Prod.snd (pts.zip (pts.rotate 1))
    rw [List.map_snd_zip _ _ hlen'] at h
    rw [h]
    rfl
  have hrot : (pts.rotate 1).countP (fun q => decide (q = p))
      = pts.countP (fun q => decide (q = p)) := by
    cases pts with
    | nil => simp
    | cons a t =>
        rw [List.rotate_cons_succ, List.rotate_zero]
        simp [List.countP_append, List.countP_cons]
  unfold segDegree loopSegs
  rw [h1, h2, hrot]
  ring

/-- In a duplicate-free list every element occurs at most once. -/
theorem countP_eq_le_one_of_nodup (pts : List Pt) (hnd : pts.Nodup) (p : Pt) :
    pts.countP (fun q => decide (q = p)) ≤ 1 := by
  induction pts with
  | nil => simp
  | cons a t ih =>
      rcases List.nodup_cons.mp hnd with ⟨ha, ht⟩
      rw [List.countP_cons]
      by_cases hap : a = p
      · subst hap
        have hz : t.countP (fun q => decide (q = a)) = 0 := by
          rw [List.countP_eq_zero]
          intro q hq
          simp only [decide_eq_true_eq]
          rintro rfl
          exact ha hq
        simp [hz]
      · rw [if_neg (by simpa using hap)]
        simpa using ih ht

/-- Counterexample to claim C6. Coordinate `(0,0)` of `dupSegs` has one
distinct neighbour, so the claim's set-semantics degree is `1 ≠ 2` and the
claim demands a junction there; the detector's `node_counts` dictionary
counts each parallel segment, giving degree 2, and emits no junction. -/
theorem claim_C6_counterexample :
    identifyJunctions dupSegs = [] ∧ specIsJunction dupSegs ((0:ℚ), (0:ℚ)) := by
  constructor
  · decide
  · constructor
    · decide
    · decide

/-- C6 (amended): a junction is emitted at a coordinate iff its
occurrence-counted degree (each parallel segment counted) is neither 0 nor 2;
only the adjacency sets collapse parallel segments. In particular a closed
single-loop way of distinct vertices yields no junctions at all. -/
theorem claim_C6 :
    (∀ (segs : List Seg) (p : Pt),
      ((∃ j ∈ identifyJunctions segs, j.coord = p) ↔
        (segDegree segs p ≠ 0 ∧ segDegree segs p ≠ 2))) ∧
    (∀ pts : List Pt, pts.Nodup → identifyJunctions (loopSegs pts) = []) := by
  constructor
  · intro segs p
    unfold identifyJunctions
    constructor
    · rintro ⟨j, hj, rfl⟩
      rcases List.mem_map.mp hj with ⟨q, hq, hq2⟩
      rcases List.mem_filter.mp hq with ⟨hq3, hq4⟩
      have hq5 : nodeCounts segs q ≠ 2 := by simpa using hq4
      have : j.coord = q := by rw [← hq2]
      rw [this]
      refine ⟨(mem_nodeList_iff segs q).mp hq3, ?_⟩
      rwa [← nodeCounts_eq_segDegree]
    · rintro ⟨h0, h2⟩
      refine ⟨⟨p, nodeCounts segs p⟩, ?_, rfl⟩
      refine List.mem_map.mpr ⟨p, ?_, rfl⟩
      refine List.mem_filter.mpr ⟨(mem_nodeList_iff segs p).mpr h0, ?_⟩
      simpa [nodeCounts_eq_segDegree] using h2
  · intro pts hnd
    unfold identifyJunctions
    have hfil : (nodeList (loopSegs pts)).filter
        (fun p => nodeCounts (loopSegs pts) p ≠ 2) = [] := by
      rw [List.filter_eq_nil_iff]
      intro p hp
      have h0 := (mem_nodeList_iff (loopSegs pts) p).mp hp
      rw [segDegree_loopSegs] at h0
      have hcount : pts.countP (fun q => decide (q = p)) = 1 := by
        have h1 := countP_eq_le_one_of_nodup pts hnd p
        omega
      simp [nodeCounts_eq_segDegree, segDegree_loopSegs, hcount]
    rw [hfil]
    rfl

/-- Witness instantiating the closed-loop part of C6 at a concrete triangle. -/
theorem claim_C6_witness :
    ([((0:ℚ), (0:ℚ)), ((0:ℚ), (1:ℚ)), ((1:ℚ), (0:ℚ))] : List Pt).Nodup ∧
      identifyJunctions (loopSegs [((0:ℚ), (0:ℚ)), ((0:ℚ), (1:ℚ)), ((1:ℚ), (0:ℚ))]) = [] :=
  ⟨by decide, claim_C6.2 _ (by decide)⟩

/-- `placeInHop` splits the target list at the first target beyond the
current hop's reach, interpolating the placed prefix. -/
theorem placeInHop_eq (p1 p2 : Pt) (seg c : ℚ) (ts : List ℚ) :
    placeInHop p1 p2 seg c ts =
      ((ts.takeWhile (fun t => decide (t ≤ c + seg))).map
          (fun t => lerp p1 p2 (if 0 < seg then (t - c) / seg else 0)),
        ts.dropWhile (fun t => decide (t ≤ c + seg))) := by
  induction ts with
  | nil => rfl
  | cons t rest ih =>
      by_cases h : t ≤ c + seg
      · simp [placeInHop, h, List.takeWhile_cons, List.dropWhile_cons, ih]
      · simp [placeInHop, h, List.takeWhile_cons, List.dropWhile_cons]

/-- Every target surviving `dropWhile` lies strictly beyond the cut, for a
sorted target list. -/
theorem dropWhile_gt (cut : ℚ) (ts : List ℚ) (hs : ts.Pairwise (· ≤ ·)) :
    ∀ t ∈ ts.dropWhile (fun t => decide (t ≤ cut)), cut < t := by
  induction ts with
  | nil => simp
  | cons a l ih =>
      rw [List.dropWhile_cons]
      rcases List.pairwise_cons.mp hs with ⟨ha, hl⟩
      by_cases hc : a ≤ cut
      · simpa [hc] using ih hl
      · push_neg at hc
        intro t ht
        rw [if_neg (by simpa using not_le.mpr hc)] at ht
        rcases List.mem_cons.mp ht with rfl | ht
        · exact hc
        · exact lt_of_lt_of_le hc (ha t ht)

/-- The single-pass two-index placement loop equals the per-target
interpolation lookup, provided the targets are sorted and each lies strictly
after the running offset and within the remaining arc length. -/
theorem placeLoop_eq_map_interp (len : LenFun) :
    ∀ (path : List Pt) (c : ℚ) (ts : List ℚ),
      ts.Pairwise (· ≤ ·) →
      (∀ t ∈ ts, c < t ∧ t ≤ c + (hopLengths len path).sum) →
      placeLoop len path c ts = ts.map (interpAt len path c) := by
  intro path
  induction path with
  | nil =>
      intro c ts _ hb
      cases ts with
      | nil => rfl
      | cons t l =>
          exfalso
          have h := hb t (by simp)
          have h0 : (hopLengths len []).sum = 0 := rfl
          rw [h0] at h
          linarith [h.1, h.2]
  | cons p1 tail ih =>
      cases tail with
      | nil =>
          intro c ts _ hb
          cases ts with
          | nil => rfl
          | cons t l =>
              exfalso
              have h := hb t (by simp)
              have h0 : (hopLengths len [p1]).sum = 0 := rfl
              rw [h0] at h
              linarith [h.1, h.2]
      | cons p2 rest =>
          intro c ts hs hb
          have hsum : (hopLengths len (p1 :: p2 :: rest)).sum
              = len p1 p2 + (hopLengths len (p2 :: rest)).sum := by
            simp [hopLengths]
          have hdw : ∀ t ∈ ts.dropWhile (fun t => decide (t ≤ c + len p1 p2)),
              c + len p1 p2 < t := dropWhile_gt _ ts hs
          have hdmem : ∀ t ∈ ts.dropWhile (fun t => decide (t ≤ c + len p1 p2)), t ∈ ts :=
            fun t ht => (List.dropWhile_sublist _).mem ht
          have ih' := ih (c + len p1 p2)
            (ts.dropWhile (fun t => decide (t ≤ c + len p1 p2)))
            (hs.sublist (List.dropWhile_sublist _))
            (by
              intro t ht
              refine ⟨hdw t ht, ?_⟩
              have h2 := (hb t (hdmem t ht)).2
              rw [hsum] at h2
              linarith)
          show (placeInHop p1 p2 (len p1 p2) c ts).1 ++
              placeLoop len (p2 :: rest) (c + len p1 p2)
                (placeInHop p1 p2 (len p1 p2) c ts).2
            = ts.map (interpAt len (p1 :: p2 :: rest) c)
          rw [placeInHop_eq]
          conv_rhs =>
            rw [← List.takeWhile_append_dropWhile
              (p := fun t => decide (t ≤ c + len p1 p2)) (l := ts)]
          rw [List.map_append]
          congr 1
          · refine List.map_congr_left ?_
            intro t ht
            have hcond : t ≤ c + len p1 p2 := by
              simpa using List.mem_takeWhile_imp ht
            simp [interpAt, hcond]
          · rw [ih']
            refine List.map_congr_left ?_
            intro t ht
            have hcond : ¬ t ≤ c + len p1 p2 := not_le.mpr (hdw t ht)
            simp [interpAt, hcond]

/-- Upper bound of banker's rounding. -/
theorem pyRound_le (q : ℚ) : (pyRound q : ℚ) ≤ q + 1/2 := by
  have hf : ((⌊q⌋ : ℤ) : ℚ) ≤ q := Int.floor_le q
  unfold pyRound
  split_ifs with h1 h2 h3 <;> push_cast <;> linarith

/-- If the tracer decides to subdivide, the traced arc length is positive. -/
theorem numSegments_gt_one_pos {L : ℚ} (h : 1 < numSegments L) : 0 < L := by
  unfold numSegments at h
  by_contra hL
  push_neg at hL
  have hle : (pyRound (L/15) : ℚ) ≤ L/15 + 1/2 := pyRound_le _
  have h15 : L / 15 ≤ 0 := div_nonpos_of_nonpos_of_nonneg hL (by norm_num)
  have hp : pyRound (L/15) ≤ 0 := by
    by_contra hpp
    push_neg at hpp
    have hc : (1:ℚ) ≤ (pyRound (L/15) : ℚ) := by exact_mod_cast hpp
    linarith
  have hmax : max 1 (pyRound (L/15)) = 1 := by omega
  rw [hmax] at h
  simp at h

/-- The target list is sorted when the arc length is nonnegative. -/
theorem waypointTargets_pairwise (dist : ℚ) (num : ℕ) (h : 0 ≤ dist) :
    (waypointTargets dist num).Pairwise (· ≤ ·) := by
  unfold waypointTargets
  rw [List.pairwise_map]
  have hlt : (List.range' 1 (num - 1)).Pairwise (· < ·) := List.pairwise_lt_range' _ _
  refine hlt.imp ?_
  intro a b hab
  have hab' : (a:ℚ) ≤ b := by exact_mod_cast hab.le
  have hstep : 0 ≤ dist / (num:ℚ) := div_nonneg h (by positivity)
  exact mul_le_mul_of_nonneg_left hab' hstep

/-- Every target is strictly positive and at most the full arc length. -/
theorem waypointTargets_bounds {dist : ℚ} {num : ℕ} (hL : 0 < dist) (hn : 1 < num) :
    ∀ t ∈ waypointTargets dist num, 0 < t ∧ t ≤ dist := by
  intro t ht
  unfold waypointTargets at ht
  rcases List.mem_map.mp ht with ⟨k, hk, rfl⟩
  rcases List.mem_range'_1.mp hk with ⟨hk1, hk2⟩
  have hnum : (0:ℚ) < (num:ℚ) := by exact_mod_cast Nat.lt_of_lt_of_le Nat.zero_lt_one hn.le
  have hkq : (1:ℚ) ≤ (k:ℚ) := by exact_mod_cast hk1
  have hkn : (k:ℚ) ≤ (num:ℚ) := by
    have : k < num := by omega
    exact_mod_cast this.le
  constructor
  · have := mul_pos (div_pos hL hnum) (lt_of_lt_of_le one_pos hkq)
    exact this
  · rw [div_mul_eq_mul_div, div_le_iff hnum]
    nlinarith

/-- C2: for an accepted edge with traced arc length `L`, the tracer computes
`segments = max(1, round(L/15))`; when `segments > 1` it emits exactly
`segments - 1` waypoints, the `k`-th interpolated at target arc length
`(k+1) * L / segments` inside the raw sub-hop whose cumulative interval
contains that target; when `segments = 1` it emits none. -/
theorem claim_C2 (len : LenFun) (path : List Pt) :
    (1 < numSegments (pathDist len path) →
      (placeWaypoints len path).length = numSegments (pathDist len path) - 1 ∧
      (∀ k : ℕ, k < numSegments (pathDist len path) - 1 →
        (placeWaypoints len path)[k]? =
          some (interpAt len path 0
            (pathDist len path / (numSegments (pathDist len path) : ℚ) * ((k:ℚ)+1))))) ∧
    (numSegments (pathDist len path) = 1 → placeWaypoints len path = []) := by
  constructor
  · intro hn
    have hL : 0 < pathDist len path := numSegments_gt_one_pos hn
    have hplace : placeWaypoints len path =
        (waypointTargets (pathDist len path) (numSegments (pathDist len path))).map
          (interpAt len path 0) := by
      show (if 1 < numSegments (pathDist len path) then
          placeLoop len path 0
            (waypointTargets (pathDist len path) (numSegments (pathDist len path)))
        else []) =
        (waypointTargets (pathDist len path) (numSegments (pathDist len path))).map
          (interpAt len path 0)
      rw [if_pos hn]
      refine placeLoop_eq_map_interp len path 0 _
        (waypointTargets_pairwise _ _ hL.le) ?_
      intro t ht
      have hb := waypointTargets_bounds hL hn t ht
      exact ⟨by linarith [hb.1], by simpa [pathDist] using hb.2⟩
    constructor
    · rw [hplace]
      simp [waypointTargets]
    · intro k hk
      rw [hplace]
      unfold waypointTargets
      rw [List.map_map, List.getElem?_map]
      rw [List.getElem?_range']
      · simp only [Option.map_some', Function.comp_apply]
        have harg : pathDist len path / (numSegments (pathDist len path) : ℚ) * ((1 + 1 * k : ℕ) : ℚ)
            = pathDist len path / (numSegments (pathDist len path) : ℚ) * ((k : ℚ) + 1) := by
          push_cast
          ring
        rw [harg]
      · exact hk
  · intro h1
    show (if 1 < numSegments (pathDist len path) then
        placeLoop len path 0
          (waypointTargets (pathDist len path) (numSegments (pathDist len path)))
      else []) = []
    rw [h1]
    simp

/-- Witness for C2 at a concrete two-point path of oracle length 30 m:
two segments, hence exactly one waypoint, at the path's midpoint. -/
theorem claim_C2_witness :
    (1 < numSegments (pathDist (fun _ _ => (30:ℚ)) [((0:ℚ), (0:ℚ)), ((1:ℚ), (0:ℚ))]) ∧
      (placeWaypoints (fun _ _ => (30:ℚ)) [((0:ℚ), (0:ℚ)), ((1:ℚ), (0:ℚ))]).length
        = numSegments (pathDist (fun _ _ => (30:ℚ)) [((0:ℚ), (0:ℚ)), ((1:ℚ), (0:ℚ))]) - 1) ∧
    numSegments (pathDist (fun _ _ => (30:ℚ)) [((0:ℚ), (3:ℚ))]) = 1 ∧
    placeWaypoints (fun _ _ => (30:ℚ)) [((0:ℚ), (3:ℚ))] = [] :=
  ⟨⟨by with_unfolding_all decide, ((claim_C2 (fun _ _ => (30:ℚ)) [((0:ℚ), (0:ℚ)), ((1:ℚ), (0:ℚ))]).1
      (by with_unfolding_all decide)).1⟩,
    by with_unfolding_all decide, (claim_C2 (fun _ _ => (30:ℚ)) [((0:ℚ), (3:ℚ))]).2 (by with_unfolding_all decide)⟩

/-- C1: every surviving boundary id of a merge lies in the symmetric
difference of the inputs' boundary id sets (so an id on both inputs,
in particular the shared edge, never survives), and a candidate id backed by
a nonzero-length polyline survives iff its tube coverage exceeds 15%. -/
theorem claim_C1 (o : MergeOracle) (wmap : ℤ → Option WLine) (a b : PolyData)
    (sharedLine : ℤ) (r : PolyData)
    (hr : mergeTwoPolygons o wmap a b sharedLine = some r) :
    (∀ lid ∈ r.boundary_white_lines, lid ∈ mergedCandidates a b) ∧
    (sharedLine ∈ a.boundary_white_lines → sharedLine ∈ b.boundary_white_lines →
      sharedLine ∉ r.boundary_white_lines) ∧
    (∀ lid ∈ mergedCandidates a b, ∀ wl, wmap lid = some wl →
      zeroLength (effPath wl) = false →
      (lid ∈ r.boundary_white_lines ↔ 15/100 < o.cover r.coords (effPath wl))) := by
  unfold mergeTwoPolygons at hr
  rcases hu : o.unionRing a.coords b.coords with _ | ring
  · rw [hu] at hr
    exact absurd hr (by simp)
  rw [hu] at hr
  simp only [Option.some_inj] at hr
  subst hr
  refine ⟨?_, ?_, ?_⟩
  · intro lid hmem
    rw [Finset.mem_sort] at hmem
    exact (Finset.mem_filter.mp hmem).1
  · intro hA hB hmem
    rw [Finset.mem_sort] at hmem
    have hcand := (Finset.mem_filter.mp hmem).1
    unfold mergedCandidates at hcand
    rcases Finset.mem_union.mp hcand with h | h
    · exact (Finset.mem_sdiff.mp h).2 (List.mem_toFinset.mpr hB)
    · exact (Finset.mem_sdiff.mp h).2 (List.mem_toFinset.mpr hA)
  · intro lid hcand wl hwl hlen
    rw [Finset.mem_sort, Finset.mem_filter]
    unfold keepLine
    rw [hwl]
    simp [hlen, hcand]

/-- Witness for C1: merging the two concrete triangles through shared edge 2
drops edge 2 and keeps edges 1 and 3. -/
theorem claim_C1_witness :
    mergeTwoPolygons mwOracle mwMap mwA mwB 2 = some mwMerged ∧
      (2 : ℤ) ∈ mwA.boundary_white_lines ∧ (2 : ℤ) ∈ mwB.boundary_white_lines ∧
      (2 : ℤ) ∉ mwMerged.boundary_white_lines :=
  ⟨by with_unfolding_all decide, by decide, by decide,
    (claim_C1 mwOracle mwMap mwA mwB 2 mwMerged (by with_unfolding_all decide)).2.1
      (by decide) (by decide)⟩

/-- A nonempty blue set is the polygon's full boundary id set. -/
theorem getBlueLines_eq_boundary {boxFits : PolyData → Bool} {p : PolyData}
    (h : getBlueLines boxFits p ≠ ∅) :
    getBlueLines boxFits p = p.boundary_white_lines.toFinset := by
  unfold getBlueLines at h ⊢
  split_ifs with hb
  · exact absurd (by simp [getBlueLines, hb]) h
  · rfl

/-- A `blue_lines` dictionary entry is empty or the blue set of some listed
polygon with that id. -/
theorem blueLinesById_cases (boxFits : PolyData → Bool) (polys : List PolyData) (pid : ℕ) :
    blueLinesById boxFits polys pid = ∅ ∨
      ∃ r ∈ polys, r.id = pid ∧ blueLinesById boxFits polys pid = getBlueLines boxFits r := by
  unfold blueLinesById
  suffices h : ∀ (acc : ℕ → Finset ℤ) (l : List PolyData),
      (l.foldl (fun acc p =>
          if getBlueLines boxFits p ≠ ∅ then Function.update acc p.id (getBlueLines boxFits p)
          else acc) acc) pid = acc pid ∨
        ∃ r ∈ l, r.id = pid ∧
          (l.foldl (fun acc p =>
            if getBlueLines boxFits p ≠ ∅ then Function.update acc p.id (getBlueLines boxFits p)
            else acc) acc) pid = getBlueLines boxFits r by
    rcases h (fun _ => ∅) polys with h | ⟨r, hr, hid, hv⟩
    · exact Or.inl h
    · exact Or.inr ⟨r, hr, hid, hv⟩
  intro acc l
  induction l generalizing acc with
  | nil => exact Or.inl rfl
  | cons a t ih =>
      simp only [List.foldl_cons]
      rcases ih (if getBlueLines boxFits a ≠ ∅ then Function.update acc a.id (getBlueLines boxFits a)
          else acc) with h | ⟨r, hr, hid, hv⟩
      · rw [h]
        split_ifs with ha
        · by_cases hap : a.id = pid
          · subst hap
            exact Or.inr ⟨a, by simp, rfl, Function.update_same _ _ _⟩
          · rw [Function.update_noteq (Ne.symm hap)]
            exact Or.inl rfl
        · exact Or.inl rfl
      · exact Or.inr ⟨r, by simp [hr], hid, hv⟩

/-- With duplicate-free ids, the dictionary entry of a listed polygon with a
nonempty blue set is exactly that polygon's blue set. -/
theorem blueLinesById_of_mem (boxFits : PolyData → Bool) (polys : List PolyData)
    (p : PolyData) (hp : p ∈ polys)
    (hids : (polys.map (·.id)).Nodup)
    (hne : getBlueLines boxFits p ≠ ∅) :
    blueLinesById boxFits polys p.id = getBlueLines boxFits p := by
  rcases blueLinesById_cases boxFits polys p.id with h | ⟨r, hr, hid, hv⟩
  · -- impossible: p itself writes a nonempty set; derive a contradiction via
    -- the cases lemma applied after splitting at p
    exfalso
    rcases List.append_of_mem hp with ⟨l1, l2, rfl⟩
    unfold blueLinesById at h
    rw [List.foldl_append, List.foldl_cons, if_pos hne] at h
    -- after the write at p, the tail l2 contains no polygon with id p.id
    have hl2 : ∀ q ∈ l2, q.id ≠ p.id := by
      intro q hq
      have := hids
      rw [List.map_append, List.map_cons] at this
      have h2 := (List.nodup_append.mp this).2
      rcases List.nodup_cons.mp h2.1 with ⟨hnotin, _⟩
      intro hqe
      exact hnotin (hqe ▸ List.mem_map.mpr ⟨q, hq, rfl⟩)
    have hpres : ∀ (acc : ℕ → Finset ℤ) (l : List PolyData), (∀ q ∈ l, q.id ≠ p.id) →
        (l.foldl (fun acc q =>
          if getBlueLines boxFits q ≠ ∅ then Function.update acc q.id (getBlueLines boxFits q)
          else acc) acc) p.id = acc p.id := by
      intro acc l hl
      induction l generalizing acc with
      | nil => rfl
      | cons a t ih =>
          simp only [List.foldl_cons]
          rw [ih _ (fun q hq => hl q (by simp [hq]))]
          split_ifs with ha
          · exact Function.update_noteq (Ne.symm (hl a (by simp))) _ _
          · rfl
    rw [hpres _ l2 hl2, Function.update_same] at h
    exact hne h
  · have hrp : r = p := List.inj_on_of_nodup_map hids hr hp hid
    rw [hv, hrp]

/-- When no other listed polygon shares any id of the blue set, the
candidate scan comes up empty. -/
theorem findMergeCandidate_none (polys : List PolyData) (pid : ℕ) (blue : Finset ℤ)
    (hshare : ∀ q ∈ polys, ∀ lid ∈ blue, lid ∈ q.boundary_white_lines → q.id = pid) :
    findMergeCandidate polys pid blue = none := by
  unfold findMergeCandidate
  rw [List.findSome?_eq_none]
  intro lid hlid
  rw [Finset.mem_sort] at hlid
  rw [Option.map_eq_none']
  rw [List.find?_eq_none]
  intro q hq
  rcases List.mem_filter.mp hq with ⟨hq1, hq2⟩
  simp only [decide_eq_true_eq] at hq2 ⊢
  exact fun hne => hne (hshare q hq1 lid hlid hq2)

/-- What a successful candidate scan guarantees: the neighbour is a listed
polygon, distinct by id, sharing the returned blue id on its boundary. -/
theorem findMergeCandidate_some (polys : List PolyData) (pid : ℕ) (blue : Finset ℤ)
    (nbr : PolyData) (sline : ℤ)
    (h : findMergeCandidate polys pid blue = some (nbr, sline)) :
    nbr ∈ polys ∧ nbr.id ≠ pid ∧ sline ∈ blue ∧ sline ∈ nbr.boundary_white_lines := by
  unfold findMergeCandidate at h
  rcases List.exists_of_findSome?_eq_some h with ⟨lid, hlid, hfl⟩
  rw [Finset.mem_sort] at hlid
  rcases Option.map_eq_some'.mp hfl with ⟨q, hfind, hqe⟩
  have hq1 := List.find?_some hfind
  have hq2 := List.mem_of_find?_eq_some hfind
  rcases List.mem_filter.mp hq2 with ⟨hq3, hq4⟩
  simp only [decide_eq_true_eq] at hq1 hq4
  rcases Prod.mk.injEq .. ▸ hqe with ⟨rfl, rfl⟩
  exact ⟨hq3, hq1, hlid, hq4⟩

/-- A successful merge adds the two inputs' merge counters. -/
theorem mergeTwoPolygons_merge_count (o : MergeOracle) (wmap : ℤ → Option WLine)
    (a b : PolyData) (s : ℤ) (m : PolyData)
    (h : mergeTwoPolygons o wmap a b s = some m) :
    m.merge_count = a.merge_count + b.merge_count := by
  unfold mergeTwoPolygons at h
  rcases hu : o.unionRing a.coords b.coords with _ | ring
  · rw [hu] at h
    exact absurd h (by simp)
  · rw [hu] at h
    simp only [Option.some_inj] at h
    subst h
    rfl

/-- Processing a polygon other than `p` (where `p` has blue edges shared by
no other polygon) never consumes `p`'s id and never appends `p` itself. -/
theorem mergeIterStep_preserves (o : MergeOracle) (wmap : ℤ → Option WLine)
    (boxFits : PolyData → Bool) (polys : List PolyData) (p q : PolyData)
    (st : MergeIterState)
    (hids : (polys.map (·.id)).Nodup)
    (hmc : ∀ r ∈ polys, 1 ≤ r.merge_count)
    (hpm : p.merge_count = 1)
    (hblue : getBlueLines boxFits p ≠ ∅)
    (hshare : ∀ r ∈ polys, ∀ lid ∈ getBlueLines boxFits p,
      lid ∈ r.boundary_white_lines → r.id = p.id)
    (hp : p ∈ polys)
    (hq : q ∈ polys) (hqp : q.id ≠ p.id) :
    (p.id ∉ st.mergedIds → p.id ∉ (mergeIterStep o wmap boxFits polys st q).mergedIds) ∧
    (p.id ∉ st.removedIds → p.id ∉ (mergeIterStep o wmap boxFits polys st q).removedIds) ∧
    (p ∉ st.newPolys → p ∉ (mergeIterStep o wmap boxFits polys st q).newPolys) ∧
    (p.id ∈ st.removedIds → p.id ∈ (mergeIterStep o wmap boxFits polys st q).removedIds) := by
  have hpq : p ≠ q := fun he => hqp (by rw [he])
  by_cases h1 : q.id ∈ st.mergedIds ∨ q.id ∈ st.removedIds
  · simp only [mergeIterStep, if_pos h1]
    exact ⟨id, id, id, id⟩
  by_cases h2 : blueLinesById boxFits polys q.id ≠ ∅
  · rcases hc : findMergeCandidate polys q.id (blueLinesById boxFits polys q.id)
      with _ | ⟨nbr, sline⟩
    · simp only [mergeIterStep, if_neg h1, if_pos h2, hc]
      refine ⟨id, ?_, id, ?_⟩
      · intro hnot hmem
        rcases Finset.mem_insert.mp hmem with he | hmem
        · exact hqp he.symm
        · exact hnot hmem
      · intro hmem
        exact Finset.mem_insert_of_mem hmem
    · have hnbr := findMergeCandidate_some polys q.id _ nbr sline hc
      by_cases h3 : nbr.id ∉ st.mergedIds ∧ nbr.id ∉ st.removedIds
      · rcases hm : mergeTwoPolygons o wmap q nbr sline with _ | m
        · simp only [mergeIterStep, if_neg h1, if_pos h2, hc, if_pos h3, hm]
          refine ⟨id, id, ?_, id⟩
          intro hnot hmem
          rcases List.mem_append.mp hmem with hmem | hmem
          · exact hnot hmem
          · exact hpq (List.mem_singleton.mp hmem)
        · have hnbrp : nbr.id ≠ p.id := by
            intro hne
            have hnbr_eq : nbr = p := List.inj_on_of_nodup_map hids hnbr.1
              (by assumption) hne
            have hsl_p : sline ∈ getBlueLines boxFits p := by
              rw [getBlueLines_eq_boundary hblue, List.mem_toFinset]
              rw [← hnbr_eq]
              exact hnbr.2.2.2
            rcases blueLinesById_cases boxFits polys q.id with hz | ⟨r, hr, hrid, hrv⟩
            · exact h2 hz
            · have hsl_r : sline ∈ getBlueLines boxFits r := by
                rw [← hrv]
                exact hnbr.2.2.1
              have hrb : getBlueLines boxFits r ≠ ∅ :=
                fun hz => by rw [hz] at hsl_r; exact absurd hsl_r (by simp)
              have hsl_rb : sline ∈ r.boundary_white_lines := by
                rw [getBlueLines_eq_boundary hrb] at hsl_r
                exact List.mem_toFinset.mp hsl_r
              have := hshare r hr sline hsl_p hsl_rb
              rw [hrid] at this
              exact hqp this
          have hmcount : m.merge_count = q.merge_count + nbr.merge_count :=
            mergeTwoPolygons_merge_count o wmap q nbr sline m hm
          have hmp : p ≠ m := by
            intro he
            have h1m := hmc q hq
            have h2m := hmc nbr hnbr.1
            rw [← he, hpm] at hmcount
            omega
          simp only [mergeIterStep, if_neg h1, if_pos h2, hc, if_pos h3, hm]
          refine ⟨?_, id, ?_, id⟩
          · intro hnot hmem
            rcases Finset.mem_insert.mp hmem with he | hmem
            · exact hnbrp he.symm
            rcases Finset.mem_insert.mp hmem with he | hmem
            · exact hqp he.symm
            · exact hnot hmem
          · intro hnot hmem
            rcases List.mem_append.mp hmem with hmem | hmem
            · exact hnot hmem
            · exact hmp (List.mem_singleton.mp hmem)
      · simp only [mergeIterStep, if_neg h1, if_pos h2, hc, if_neg h3]
        refine ⟨id, ?_, id, ?_⟩
        · intro hnot hmem
          rcases Finset.mem_insert.mp hmem with he | hmem
          · exact hqp he.symm
          · exact hnot hmem
        · intro hmem
          exact Finset.mem_insert_of_mem hmem
  · simp only [mergeIterStep, if_neg h1, if_neg h2]
    refine ⟨id, id, ?_, id⟩
    intro hnot hmem
    rcases List.mem_append.mp hmem with hmem | hmem
    · exact hnot hmem
    · exact hpq (List.mem_singleton.mp hmem)

/-- C9 (amended): the merge pass is a 10-fuel loop (`mergeSmallPolygons` is
`mergeLoop ... 10`), so it terminates for every input.  It stops as soon as
no polygon has blue edges, or as soon as an iteration performs no merge —
in the latter case returning the iteration's input, so that iteration's
border-polygon removals are discarded.  Within a single iteration, a
polygon that has blue edges shared by no other polygon is marked removed and
is absent from the iteration's output list. -/
theorem claim_C9 (o : MergeOracle) (wmap : ℤ → Option WLine) (boxFits : PolyData → Bool) :
    (∀ (n : ℕ) (polys : List PolyData), polysWithBlue boxFits polys = [] →
      mergeLoop o wmap boxFits (n + 1) polys = polys) ∧
    (∀ (n : ℕ) (polys : List PolyData),
      (mergeIteration o wmap boxFits polys).mergedIds = ∅ →
      mergeLoop o wmap boxFits (n + 1) polys = polys) ∧
    (∀ (polys : List PolyData) (p : PolyData),
      p ∈ polys →
      (polys.map (·.id)).Nodup →
      (∀ r ∈ polys, 1 ≤ r.merge_count) →
      p.merge_count = 1 →
      getBlueLines boxFits p ≠ ∅ →
      (∀ r ∈ polys, ∀ lid ∈ getBlueLines boxFits p,
        lid ∈ r.boundary_white_lines → r.id = p.id) →
      p.id ∈ (mergeIteration o wmap boxFits polys).removedIds ∧
        p ∉ (mergeIteration o wmap boxFits polys).newPolys) := by
  refine ⟨?_, ?_, ?_⟩
  · intro n polys h
    unfold mergeLoop
    rw [if_pos h]
  · intro n polys h
    unfold mergeLoop
    by_cases hb : polysWithBlue boxFits polys = []
    · rw [if_pos hb]
    · rw [if_neg hb]
      simp [h]
  · intro polys p hp hids hmc hpm hblue hshare
    rcases List.append_of_mem hp with ⟨l1, l2, hsplit⟩
    have hid1 : ∀ q ∈ l1, q.id ≠ p.id := by
      intro q hq he
      rw [hsplit, List.map_append, List.map_cons] at hids
      rcases List.nodup_append.mp hids with ⟨_, _, hdisj⟩
      exact hdisj (List.mem_map.mpr ⟨q, hq, rfl⟩) (by simp [he])
    have hid2 : ∀ q ∈ l2, q.id ≠ p.id := by
      intro q hq he
      rw [hsplit, List.map_append, List.map_cons] at hids
      rcases List.nodup_append.mp hids with ⟨_, h2, _⟩
      rcases List.nodup_cons.mp h2 with ⟨hnotin, _⟩
      exact hnotin (he ▸ List.mem_map.mpr ⟨q, hq, rfl⟩)
    have hfold1 : ∀ (l : List PolyData), (∀ q ∈ l, q ∈ polys ∧ q.id ≠ p.id) →
        ∀ st : MergeIterState,
        p.id ∉ st.mergedIds ∧ p.id ∉ st.removedIds ∧ p ∉ st.newPolys →
        p.id ∉ (l.foldl (mergeIterStep o wmap boxFits polys) st).mergedIds ∧
          p.id ∉ (l.foldl (mergeIterStep o wmap boxFits polys) st).removedIds ∧
          p ∉ (l.foldl (mergeIterStep o wmap boxFits polys) st).newPolys := by
      intro l
      induction l with
      | nil => intro _ st h; exact h
      | cons a t ih =>
          intro hmem st h
          have hpr := mergeIterStep_preserves o wmap boxFits polys p a st hids hmc hpm
            hblue hshare hp (hmem a (by simp)).1 (hmem a (by simp)).2
          exact ih (fun q hq => hmem q (by simp [hq])) _
            ⟨hpr.1 h.1, hpr.2.1 h.2.1, hpr.2.2.1 h.2.2⟩
    have hfold2 : ∀ (l : List PolyData), (∀ q ∈ l, q ∈ polys ∧ q.id ≠ p.id) →
        ∀ st : MergeIterState,
        p.id ∈ st.removedIds ∧ p ∉ st.newPolys →
        p.id ∈ (l.foldl (mergeIterStep o wmap boxFits polys) st).removedIds ∧
          p ∉ (l.foldl (mergeIterStep o wmap boxFits polys) st).newPolys := by
      intro l
      induction l with
      | nil => intro _ st h; exact h
      | cons a t ih =>
          intro hmem st h
          have hpr := mergeIterStep_preserves o wmap boxFits polys p a st hids hmc hpm
            hblue hshare hp (hmem a (by simp)).1 (hmem a (by simp)).2
          exact ih (fun q hq => hmem q (by simp [hq])) _
            ⟨hpr.2.2.2 h.1, hpr.2.2.1 h.2⟩
    have hdictp : blueLinesById boxFits polys p.id = getBlueLines boxFits p :=
      blueLinesById_of_mem boxFits polys p hp hids hblue
    have hiter : mergeIteration o wmap boxFits polys
        = l2.foldl (mergeIterStep o wmap boxFits polys)
            (mergeIterStep o wmap boxFits polys
              (l1.foldl (mergeIterStep o wmap boxFits polys) ⟨∅, ∅, []⟩) p) := by
      unfold mergeIteration
      nth_rewrite 2 [hsplit]
      rw [List.foldl_append, List.foldl_cons]
    have hst1 := hfold1 l1 (fun q hq => ⟨by rw [hsplit]; simp [hq], hid1 q hq⟩)
      ⟨∅, ∅, []⟩ (by simp)
    set st1 := l1.foldl (mergeIterStep o wmap boxFits polys) ⟨∅, ∅, []⟩ with hst1def
    have hstep : mergeIterStep o wmap boxFits polys st1 p
        = ⟨st1.mergedIds, insert p.id st1.removedIds, st1.newPolys⟩ := by
      unfold mergeIterStep
      rw [if_neg (by
        intro hor
        rcases hor with h | h
        · exact hst1.1 h
        · exact hst1.2.1 h)]
      rw [hdictp]
      rw [if_pos hblue]
      rw [findMergeCandidate_none polys p.id (getBlueLines boxFits p) hshare]
    rw [hiter, hstep]
    exact hfold2 l2 (fun q hq => ⟨by rw [hsplit]; simp [hq], hid2 q hq⟩) _
      ⟨Finset.mem_insert_self _ _, hst1.2.2⟩

/-- Counterexample to C9 as stated: `borderPoly` has blue edges and no
neighbour sharing one of them, yet the pass returns it unchanged — the
iteration removes it, then performs no merge, and the source's
`if not merged_ids: break` discards the iteration's removals. -/
theorem claim_C9_counterexample :
    getBlueLines (fun _ => false) borderPoly ≠ ∅ ∧
      mergeSmallPolygons cOracle (fun _ => none) (fun _ => false) [borderPoly]
        = [borderPoly] :=
  ⟨by decide, by with_unfolding_all decide⟩

/-- Witness instantiating C9's removal clause: within the single iteration,
`borderPoly` is marked removed and missing from the iteration's output. -/
theorem claim_C9_witness :
    borderPoly ∈ [borderPoly] ∧
      getBlueLines (fun _ => false) borderPoly ≠ ∅ ∧
      borderPoly.id ∈
        (mergeIteration cOracle (fun _ => none) (fun _ => false) [borderPoly]).removedIds ∧
      borderPoly ∉
        (mergeIteration cOracle (fun _ => none) (fun _ => false) [borderPoly]).newPolys :=
  ⟨by decide, by decide,
    ((claim_C9 cOracle (fun _ => none) (fun _ => false)).2.2 [borderPoly] borderPoly
      (by decide) (by decide) (by decide) (by decide) (by decide) (by decide)).1,
    ((claim_C9 cOracle (fun _ => none) (fun _ => false)).2.2 [borderPoly] borderPoly
      (by decide) (by decide) (by decide) (by decide) (by decide) (by decide)).2⟩

/-- An edge found in the white-line graph is one of the white lines. -/
theorem getEdgeData_mem {lines : List WLine} {u v : Pt} {wl : WLine}
    (h : getEdgeData lines u v = some wl) : wl ∈ lines := by
  unfold getEdgeData at h
  exact List.mem_reverse.mp (List.mem_of_find?_eq_some h)

/-- The cycle-walk fold accumulates exactly the found edges' ids (as a set)
and their green counts (as a sum on top of the initial node count). -/
theorem cycleFold_spec (lines : List WLine) :
    ∀ (prs : List (Pt × Pt)) (acc : List Pt × Finset ℤ × ℕ),
      (∀ e ∈ prs.filterMap (fun uv => getEdgeData lines uv.1 uv.2), e.id ≠ -1) →
      (prs.foldl (cycleStep lines) acc).2.1
          = acc.2.1 ∪ ((prs.filterMap (fun uv => getEdgeData lines uv.1 uv.2)).map (·.id)).toFinset ∧
        (prs.foldl (cycleStep lines) acc).2.2
          = acc.2.2 + ((prs.filterMap (fun uv => getEdgeData lines uv.1 uv.2)).map (·.green_count)).sum := by
  intro prs
  induction prs with
  | nil =>
      intro acc _
      simp
  | cons uv rest ih =>
      intro acc hne
      rcases hed : getEdgeData lines uv.1 uv.2 with _ | ed
      · have hfm : (uv :: rest).filterMap (fun x => getEdgeData lines x.1 x.2)
            = rest.filterMap (fun x => getEdgeData lines x.1 x.2) := by
          rw [List.filterMap_cons]
          rw [hed]
        rw [List.foldl_cons, hfm]
        have ih' := ih (cycleStep lines acc uv) (by
          intro e he
          exact hne e (by rw [hfm]; exact he))
        have hacc1 : (cycleStep lines acc uv).2.1 = acc.2.1 := by
          simp [cycleStep, hed]
        have hacc2 : (cycleStep lines acc uv).2.2 = acc.2.2 := by
          simp [cycleStep, hed]
        rw [ih'.1, ih'.2, hacc1, hacc2]
        exact ⟨rfl, rfl⟩
      · have hfm : (uv :: rest).filterMap (fun x => getEdgeData lines x.1 x.2)
            = ed :: rest.filterMap (fun x => getEdgeData lines x.1 x.2) := by
          rw [List.filterMap_cons]
          rw [hed]
        have hne_ed : ed.id ≠ -1 := hne ed (by rw [hfm]; simp)
        have hne' : ∀ e ∈ rest.filterMap (fun x => getEdgeData lines x.1 x.2), e.id ≠ -1 :=
          fun e he => hne e (by rw [hfm]; simp [he])
        have hacc1 : (cycleStep lines acc uv).2.1 = insert ed.id acc.2.1 := by
          simp [cycleStep, hed, hne_ed]
        have hacc2 : (cycleStep lines acc uv).2.2 = acc.2.2 + ed.green_count := by
          simp [cycleStep, hed]
        rw [List.foldl_cons, hfm]
        have ih' := ih (cycleStep lines acc uv) hne'
        constructor
        · rw [ih'.1, hacc1, List.map_cons, List.toFinset_cons, Finset.insert_union,
            Finset.union_insert]
        · rw [ih'.2, hacc2, List.map_cons, List.sum_cons]
          omega

/-- Counterexample to C7's Scenario-C half: the unsubdivided triangle loop
yields zero junctions (every vertex has degree 2), not 3. -/
theorem claim_C7_counterexample :
    identifyJunctions (waysToSegs triWays) = [] := by
  decide

/-- C7 (amended): for every polygon stitched from a basis cycle whose found
edges carry distinct non-sentinel ids, `total_points` equals the sum of the
boundary edges' waypoint counts plus the cycle's (distinct) node count; but
an unsubdivided triangle loop produces no junctions at all, hence no edges
and no polygons — not the claimed 3/3/1. -/
theorem claim_C7 (orc : ExtractOracle) (lines : List WLine) :
    (∀ (cycle : List Pt) (p : PolyData),
      polygonOfCycle orc lines cycle = some p →
      (lines.map (·.id)).Nodup →
      (∀ e ∈ cycleEdges lines cycle, e.id ≠ -1) →
      ((cycleEdges lines cycle).map (·.id)).Nodup →
      p.total_points = (p.boundary_white_lines.map (greenOfId lines)).sum + cycle.length) ∧
    (∀ (len : LenFun) (bcId : Pt → ℕ) (lineId : ℕ → ℤ)
        (cyclesOf : List WLine → List (List Pt)),
      cyclesOf [] = [] →
      attemptPipeline len bcId lineId orc cyclesOf triWays = ([], [], [], [])) := by
  constructor
  · intro cycle p hp hlinesN hneg hidsN
    by_cases hl3 : cycle.length < 3
    · exact absurd hp (by simp [polygonOfCycle, hl3])
    unfold polygonOfCycle at hp
    rw [if_neg hl3] at hp
    set res := (cyclePairs cycle).foldl (cycleStep lines) ([], ∅, cycle.length) with hres
    set coords := (match res.1 with
      | [] => ([] : List Pt)
      | c :: rest => (c :: rest) ++ [c]) with hcoords
    by_cases har : orc.ringArea coords < 2 / 1000000000
    · rw [if_pos har] at hp
      exact absurd hp (by simp)
    rw [if_neg har] at hp
    simp only [Option.some_inj] at hp
    have hfold := cycleFold_spec lines (cyclePairs cycle) ([], ∅, cycle.length) hneg
    have htp : p.total_points = cycle.length
        + ((cycleEdges lines cycle).map (·.green_count)).sum := by
      rw [← hp]
      exact hfold.2
    have hbd : p.boundary_white_lines
        = (((cycleEdges lines cycle).map (·.id)).toFinset).sort (· ≤ ·) := by
      rw [← hp]
      simp only
      rw [hfold.1]
      rw [Finset.empty_union]
      rfl
    have hperm : p.boundary_white_lines.Perm ((cycleEdges lines cycle).map (·.id)) := by
      rw [hbd]
      exact (Finset.sort_perm_toList _ _).trans (List.toFinset_toList hidsN)
    have hsum : (p.boundary_white_lines.map (greenOfId lines)).sum
        = (((cycleEdges lines cycle).map (·.id)).map (greenOfId lines)).sum :=
      (hperm.map (greenOfId lines)).sum_eq
    have hgreens : (((cycleEdges lines cycle).map (·.id)).map (greenOfId lines)).sum
        = ((cycleEdges lines cycle).map (·.green_count)).sum := by
      rw [List.map_map]
      refine congrArg List.sum (List.map_congr_left ?_)
      intro e he
      have hmem : e ∈ lines := by
        rcases List.mem_filterMap.mp he with ⟨uv, _, hg⟩
        exact getEdgeData_mem hg
      show greenOfId lines e.id = e.green_count
      unfold greenOfId
      rcases hf : lines.find? (fun wl => decide (wl.id = e.id)) with _ | wl
      · rw [List.find?_eq_none] at hf
        exact absurd (by simp : decide (e.id = e.id) = true) (hf e hmem)
      · have h1 := List.find?_some hf
        have h2 := List.mem_of_find?_eq_some hf
        simp only [decide_eq_true_eq] at h1
        have hwle : wl = e := List.inj_on_of_nodup_map hlinesN h2 hmem h1
        rw [hf, hwle]
        rfl
    rw [htp, hsum, hgreens]
    omega
  · intro len bcId lineId cyclesOf hcy
    have hbc : identifyJunctions (waysToSegs triWays) = [] := by decide
    have hcge : createGraphElements len lineId [] (adjPairs (waysToSegs triWays)) = ([], []) := by
      unfold createGraphElements
      simp [sortPts]
    unfold attemptPipeline
    simp only [hbc, List.map_nil, hcge]
    simp [findPolygons, hcy]

/-- Witness for C7: the stitched triangle polygon satisfies the
`total_points` formula (3 waypoints + 3 junctions = 6). -/
theorem claim_C7_witness :
    polygonOfCycle twOracle twLines twCycle = some twP ∧
      twP.total_points = (twP.boundary_white_lines.map (greenOfId twLines)).sum + twCycle.length :=
  ⟨by with_unfolding_all decide,
    (claim_C7 twOracle twLines).1 twCycle twP (by with_unfolding_all decide)
      (by decide) (by with_unfolding_all decide) (by with_unfolding_all decide)⟩

/-- Every run of the retry loop ends in one of exactly three shapes: a
`NO_ROADS` failure, a `NO_POLYGONS` failure, or a success bundle — never an
exception. -/
theorem generateAttempts_shape (len : LenFun) (bcId : Pt → ℕ) (lineId : ℕ → ℤ)
    (orc : ExtractOracle) (cyclesOf : List WLine → List (List Pt))
    (lat lon : ℚ) (fetch : ℚ → List (List Pt)) :
    ∀ l : List (ℕ × ℚ),
      (∃ m, generateAttempts len bcId lineId orc cyclesOf lat lon fetch l
          = MapResult.noRoads lat lon m) ∨
        generateAttempts len bcId lineId orc cyclesOf lat lon fetch l
          = MapResult.noPolygons lat lon 3 ∨
        (∃ p li b g, generateAttempts len bcId lineId orc cyclesOf lat lon fetch l
          = MapResult.success p li b g) := by
  intro l
  induction l with
  | nil => exact Or.inr (Or.inl rfl)
  | cons a rest ih =>
      obtain ⟨n, size⟩ := a
      by_cases hf : fetch size = []
      · by_cases hr : rest = []
        · exact Or.inl ⟨sizeMeters size, by simp [generateAttempts, hf, hr]⟩
        · simpa [generateAttempts, hf, hr] using ih
      · by_cases hp : (attemptPipeline len bcId lineId orc cyclesOf (fetch size)).1 = []
        · by_cases hr : rest = []
          · exact Or.inr (Or.inl (by simp [generateAttempts, hf, hp, hr]))
          · simpa [generateAttempts, hf, hp, hr] using ih
        · have hs : generateAttempts len bcId lineId orc cyclesOf lat lon fetch
              ((n, size) :: rest)
              = MapResult.success (attemptPipeline len bcId lineId orc cyclesOf (fetch size)).1
                  (attemptPipeline len bcId lineId orc cyclesOf (fetch size)).2.1
                  (attemptPipeline len bcId lineId orc cyclesOf (fetch size)).2.2.1
                  (attemptPipeline len bcId lineId orc cyclesOf (fetch size)).2.2.2 := by
            simp [generateAttempts, hf, hp]
          exact Or.inr (Or.inr ⟨_, _, _, _, hs⟩)

/-- C8 (amended): the retry loop never raises — it yields a success bundle
or one of the two structured failures.  When every region size yields zero
input, the result is `NO_ROADS`, whose message carries the attempted region
size (~1110 m for the largest region).  When every region yields input but
no polygons (e.g. an acyclic graph), the result is `NO_POLYGONS`, whose
message carries only the attempt count and *not* the region size. -/
theorem claim_C8 (len : LenFun) (bcId : Pt → ℕ) (lineId : ℕ → ℤ)
    (orc : ExtractOracle) (cyclesOf : List WLine → List (List Pt))
    (lat lon : ℚ) (fetch : ℚ → List (List Pt)) :
    ((∃ m, generateMap len bcId lineId orc cyclesOf lat lon fetch
        = MapResult.noRoads lat lon m) ∨
      generateMap len bcId lineId orc cyclesOf lat lon fetch
        = MapResult.noPolygons lat lon 3 ∨
      (∃ p li b g, generateMap len bcId lineId orc cyclesOf lat lon fetch
        = MapResult.success p li b g)) ∧
    ((∀ s ∈ REGION_SIZES, fetch s = []) →
      generateMap len bcId lineId orc cyclesOf lat lon fetch
          = MapResult.noRoads lat lon 1110 ∧
        carriesRegionSize (generateMap len bcId lineId orc cyclesOf lat lon fetch)) ∧
    ((∀ s ∈ REGION_SIZES, fetch s ≠ [] ∧
        (attemptPipeline len bcId lineId orc cyclesOf (fetch s)).1 = []) →
      generateMap len bcId lineId orc cyclesOf lat lon fetch
          = MapResult.noPolygons lat lon 3 ∧
        ¬ carriesRegionSize (generateMap len bcId lineId orc cyclesOf lat lon fetch)) := by
  refine ⟨generateAttempts_shape len bcId lineId orc cyclesOf lat lon fetch _, ?_, ?_⟩
  · intro hall
    have h1 : fetch (15/10000) = [] := hall _ (by simp [REGION_SIZES])
    have h2 : fetch (5/1000) = [] := hall _ (by simp [REGION_SIZES])
    have h3 : fetch (1/100) = [] := hall _ (by simp [REGION_SIZES])
    have hm : sizeMeters (1/100) = 1110 := by
      unfold sizeMeters
      norm_num
    rw [one_div] at h3 hm
    have hres : generateMap len bcId lineId orc cyclesOf lat lon fetch
        = MapResult.noRoads lat lon 1110 := by
      unfold generateMap
      simp [REGION_SIZES, generateAttempts, h1, h2, h3, hm]
    refine ⟨hres, ?_⟩
    rw [hres]
    trivial
  · intro hall
    have h1 := hall (15/10000) (by simp [REGION_SIZES])
    have h2 := hall (5/1000) (by simp [REGION_SIZES])
    have h3 := hall (1/100) (by simp [REGION_SIZES])
    rw [one_div] at h3
    have hres : generateMap len bcId lineId orc cyclesOf lat lon fetch
        = MapResult.noPolygons lat lon 3 := by
      unfold generateMap
      simp [REGION_SIZES, generateAttempts, h1.1, h1.2, h2.1, h2.2, h3.1, h3.2]
    refine ⟨hres, ?_⟩
    rw [hres]
    exact fun h => h

/-- Counterexample to C8 as stated: a region with roads but no cycles ends
in `NO_POLYGONS`, whose message does not carry the attempted region size. -/
theorem claim_C8_counterexample :
    generateMap (fun _ _ => 0) (fun _ => 0) (fun _ => 0) c8Oracle (fun _ => []) 0 0
        (fun _ => c8Ways) = MapResult.noPolygons 0 0 3 ∧
      ¬ carriesRegionSize (MapResult.noPolygons 0 0 3) :=
  ⟨by with_unfolding_all decide, fun h => h⟩

/-- Witness for C8's zero-input clause: an always-empty fetch ends in
`NO_ROADS` carrying ~1110 m. -/
theorem claim_C8_witness :
    (fun _ : ℚ => ([] : List (List Pt))) (15/10000) = [] ∧
      generateMap (fun _ _ => 0) (fun _ => 0) (fun _ => 0) c8Oracle (fun _ => []) 0 0
          (fun _ : ℚ => ([] : List (List Pt))) = MapResult.noRoads 0 0 1110 :=
  ⟨rfl,
    ((claim_C8 (fun _ _ => 0) (fun _ => 0) (fun _ => 0) c8Oracle (fun _ => []) 0 0
      (fun _ : ℚ => ([] : List (List Pt)))).2.1 (fun _ _ => rfl)).1⟩

/-- Sorting a set of polygon ids and filtering against the valid polygon
ids is a no-op when every member is valid. -/
theorem sort_filter_valid (polys : List PolyData) (s : Finset ℕ)
    (hs : ∀ pid ∈ s, pid ∈ polys.map (·.id)) :
    (s.sort (· ≤ ·)).filter (fun pid => decide (pid ∈ polys.map (·.id)))
      = s.sort (· ≤ ·) := by
  apply List.filter_eq_self.mpr
  intro a ha
  rw [Finset.mem_sort] at ha
  simpa using hs a ha

/-- Every member of a `bc_poly_map` entry is a listed polygon's id. -/
theorem bcTouchSet_valid (lines : List WLine) (polys : List PolyData)
    (bcs1 : List BC0) (bcid : ℕ) :
    ∀ pid ∈ bcTouchSet lines polys bcs1 bcid, pid ∈ polys.map (·.id) := by
  intro pid hpid
  unfold bcTouchSet at hpid
  rw [List.mem_toFinset] at hpid
  rcases List.mem_map.mp hpid with ⟨p, hp, rfl⟩
  exact List.mem_map.mpr ⟨p, List.mem_of_mem_filter hp, rfl⟩

/-- Every member of a `wl_poly_map` entry is a listed polygon's id. -/
theorem wlPolySet_valid (polys : List PolyData) (lid : ℤ) :
    ∀ pid ∈ wlPolySet polys lid, pid ∈ polys.map (·.id) := by
  intro pid hpid
  unfold wlPolySet at hpid
  rw [List.mem_toFinset] at hpid
  rcases List.mem_map.mp hpid with ⟨p, hp, rfl⟩
  exact List.mem_map.mpr ⟨p, List.mem_of_mem_filter hp, rfl⟩

/-- C4 (amended): an enriched junction's `is_saturated` flag is a count
comparison — it is true iff the junction's active-edge count equals the
number of distinct polygons linked to it (through the rounded endpoints of
their boundary lines) and that count is positive.  This agrees with "every
active edge borders a tallied polygon" only in the regular planar case, not
in general. -/
theorem claim_C4 (lines : List WLine) (polys : List PolyData) (bcs : List BC0) :
    ∀ eb ∈ enrichBlue lines polys bcs,
      eb.connected_polygons_count
          = (bcTouchSet lines polys
              (bcs.filter (fun bc => decide (0 < activeConnections lines bc.coord))) eb.id).card ∧
        (eb.is_saturated = true ↔
          (eb.active_connections
              = (bcTouchSet lines polys
                  (bcs.filter (fun bc => decide (0 < activeConnections lines bc.coord)))
                  eb.id).card ∧
            0 < eb.active_connections)) := by
  intro eb heb
  unfold enrichBlue at heb
  rcases List.mem_map.mp heb with ⟨bc, hbc, rfl⟩
  have hsan := sort_filter_valid polys
    (bcTouchSet lines polys
      (bcs.filter (fun bc => decide (0 < activeConnections lines bc.coord))) bc.id)
    (bcTouchSet_valid lines polys _ bc.id)
  constructor
  · show (((bcTouchSet lines polys
        (bcs.filter (fun bc => decide (0 < activeConnections lines bc.coord))) bc.id).sort
          (· ≤ ·)).filter (fun pid => decide (pid ∈ polys.map (·.id)))).length
      = (bcTouchSet lines polys
          (bcs.filter (fun bc => decide (0 < activeConnections lines bc.coord))) bc.id).card
    rw [hsan]
    exact Finset.length_sort _
  · show decide (activeConnections lines bc.coord
        = ((bcTouchSet lines polys
            (bcs.filter (fun bc => decide (0 < activeConnections lines bc.coord))) bc.id).sort
              (· ≤ ·)).length
        ∧ 0 < activeConnections lines bc.coord) = true ↔
      (activeConnections lines bc.coord
          = (bcTouchSet lines polys
              (bcs.filter (fun bc => decide (0 < activeConnections lines bc.coord))) bc.id).card
        ∧ 0 < activeConnections lines bc.coord)
    rw [Finset.length_sort]
    simp

/-- Counterexample to C4 as stated: at the triangle corner every active edge
(edges 1 and 2) borders the tallied polygon 100, yet the enricher reports
`is_saturated = false` because it compares the active-edge count (2) with
the linked-polygon count (1). -/
theorem claim_C4_counterexample :
    (enrichBlue c4Lines c4Polys c4Bcs).map (·.is_saturated) = [false] ∧
      (enrichBlue c4Lines c4Polys c4Bcs).map (·.active_connections) = [2] ∧
      specAllActiveTallied c4Lines c4Polys ((0:ℚ), (0:ℚ)) = true :=
  ⟨by with_unfolding_all decide, by with_unfolding_all decide, by decide⟩

/-- Witness instantiating C4 at the triangle corner. -/
theorem claim_C4_witness :
    c4Eb ∈ enrichBlue c4Lines c4Polys c4Bcs ∧
      (c4Eb.is_saturated = true ↔
        (c4Eb.active_connections
            = (bcTouchSet c4Lines c4Polys
                (c4Bcs.filter (fun bc => decide (0 < activeConnections c4Lines bc.coord)))
                c4Eb.id).card ∧
          0 < c4Eb.active_connections)) :=
  ⟨by with_unfolding_all decide,
    (claim_C4 c4Lines c4Polys c4Bcs c4Eb (by with_unfolding_all decide)).2⟩

/-- C5 (amended): an enriched edge's `connected_polygons_count` equals the
number of distinct input polygons whose boundary-id list contains the edge's
id — trivially at least 0, and at most 2 exactly when no accepted line's id
is referenced by more than two polygons; the enricher applies no clamp. -/
theorem claim_C5 (polys : List PolyData) (lines : List WLine) :
    (∀ ew ∈ enrichWhite polys lines,
      ew.connected_polygons_count = (wlPolySet polys ew.wl.id).card) ∧
    ((∀ lid ∈ lines.map (·.id), (wlPolySet polys lid).card ≤ 2) →
      ∀ ew ∈ enrichWhite polys lines, ew.connected_polygons_count ≤ 2) := by
  have hmain : ∀ ew ∈ enrichWhite polys lines,
      ew.connected_polygons_count = (wlPolySet polys ew.wl.id).card := by
    intro ew hew
    unfold enrichWhite at hew
    rcases List.mem_map.mp hew with ⟨wl, hwl, rfl⟩
    have hsan := sort_filter_valid polys (wlPolySet polys wl.id) (wlPolySet_valid polys wl.id)
    show (((wlPolySet polys wl.id).sort (· ≤ ·)).filter
        (fun pid => decide (pid ∈ polys.map (·.id)))).length = (wlPolySet polys wl.id).card
    rw [hsan]
    exact Finset.length_sort _
  refine ⟨hmain, ?_⟩
  intro hb ew hew
  rw [hmain ew hew]
  refine hb ew.wl.id ?_
  unfold enrichWhite at hew
  rcases List.mem_map.mp hew with ⟨wl, hwl, rfl⟩
  exact List.mem_map.mpr ⟨wl, hwl, rfl⟩

/-- Counterexample to C5 as stated: three polygons referencing the same edge
id give that edge `connected_polygons_count = 3 > 2`; the enricher never
clamps. -/
theorem claim_C5_counterexample :
    (enrichWhite c5Polys c5Lines).map (·.connected_polygons_count) = [3] := by
  with_unfolding_all decide

/-- Witness instantiating C5 where each edge id is referenced by at most
two polygons. -/
theorem claim_C5_witness :
    c5wEw ∈ enrichWhite c5wPolys c5Lines ∧ c5wEw.connected_polygons_count ≤ 2 :=
  ⟨by with_unfolding_all decide,
    (claim_C5 c5wPolys c5Lines).2 (by with_unfolding_all decide) c5wEw
      (by with_unfolding_all decide)⟩

/-- Membership in the boundary-id accumulation. -/
theorem foldl_bwlUnion_mem (l : List PolyData) (init : Finset ℤ) (x : ℤ) :
    x ∈ l.foldl bwlUnion init ↔ x ∈ init ∨ ∃ p ∈ l, x ∈ p.boundary_white_lines := by
  induction l generalizing init with
  | nil => simp
  | cons a t ih =>
    rw [List.foldl_cons, ih]
    simp only [bwlUnion, Finset.mem_union, List.mem_toFinset, List.mem_cons]
    constructor
    · rintro ((h | h) | ⟨p, hp, hx⟩)
      · exact Or.inl h
      · exact Or.inr ⟨a, Or.inl rfl, h⟩
      · exact Or.inr ⟨p, Or.inr hp, hx⟩
    · rintro (h | ⟨p, (rfl | hp), hx⟩)
      · exact Or.inl (Or.inl h)
      · exact Or.inl (Or.inr hx)
      · exact Or.inr ⟨p, hp, hx⟩

/-- Membership in the blue-circle-endpoint accumulation. -/
theorem foldl_bcIdInsert_mem (l : List EWhite) (init : Finset ℕ) (x : ℕ) :
    x ∈ l.foldl bcIdInsert init ↔
      x ∈ init ∨ ∃ wl ∈ l, wl.wl.startBC = some x ∨ wl.wl.endBC = some x := by
  induction l generalizing init with
  | nil => simp
  | cons a t ih =>
    rw [List.foldl_cons, ih]
    have hstep : x ∈ bcIdInsert init a ↔
        x ∈ init ∨ a.wl.startBC = some x ∨ a.wl.endBC = some x := by
      unfold bcIdInsert
      rcases hs : a.wl.startBC with _ | i <;> rcases he : a.wl.endBC with _ | j <;>
        simp [hs, he, Finset.mem_insert, eq_comm] <;> tauto
    rw [hstep]
    simp only [List.mem_cons]
    constructor
    · rintro ((h | h) | ⟨wl, hwl, h⟩)
      · exact Or.inl h
      · exact Or.inr ⟨a, Or.inl rfl, h⟩
      · exact Or.inr ⟨wl, Or.inr hwl, h⟩
    · rintro (h | ⟨wl, (rfl | hwl), h⟩)
      · exact Or.inl (Or.inl h)
      · exact Or.inl (Or.inr h)
      · exact Or.inr ⟨wl, hwl, h⟩

theorem updWl_wl (fpids : Finset ℕ) (wl : EWhite) : (updWl fpids wl).wl = wl.wl := rfl

theorem updBc_id (fpids : Finset ℕ) (vlids : Finset ℤ) (bc : EBlue) :
    (updBc fpids vlids bc).id = bc.id := rfl

theorem updGc_gc (fpids : Finset ℕ) (gc : EGreen) : (updGc fpids gc).gc = gc.gc := rfl

/-- Under a passing guard and a resolved nonempty anchor, `filterData` is the
restriction pass. -/
theorem filterData_eq_applyFilter (sqrtA : ℚ → ℚ) (mode : String) (lat lon : ℚ)
    (restored : List ℕ) (polys : List PolyData) (lines : List EWhite)
    (bcs : List EBlue) (gcs : List EGreen) (anchor : Finset ℕ)
    (hmode : mode = "initial" ∨ mode = "expand") (hpolys : polys ≠ [])
    (hres : resolveAnchor sqrtA mode lat lon restored bcs gcs = some anchor)
    (hne : anchor ≠ ∅) :
    filterData sqrtA mode lat lon restored polys lines bcs gcs
      = applyFilter anchor polys lines bcs gcs := by
  have hguard : ¬((mode ≠ "initial" ∧ mode ≠ "expand") ∨ polys = []) := by
    push_neg
    exact ⟨fun h1 => hmode.resolve_left h1, hpolys⟩
  unfold filterData
  rw [if_neg hguard, hres]
  simp [hne]

/-- C3. Whenever the visibility filter resolves a nonempty anchor polygon-id
set (guard passed, `resolveAnchor = some anchor ≠ ∅`, and every waypoint's
parent line id is backed by an input line), the output is a subset of the
input in every entity class (polygons verbatim; lines, junctions and
waypoints up to the stats recalculation, i.e. by underlying line record,
junction id and waypoint record); every kept polygon's id is in the anchor
set; the kept lines are exactly the input lines whose id appears on some
kept polygon's boundary list; every kept junction is an endpoint
(`start/end_blue_circle_id`) of a kept line; every kept waypoint's parent
line id is a kept line's id. And whenever no anchor resolves (either `none`
or the empty set), all four collections are returned unchanged. -/
theorem claim_C3 (sqrtA : ℚ → ℚ) (mode : String) (lat lon : ℚ) (restored : List ℕ)
    (polys : List PolyData) (lines : List EWhite) (bcs : List EBlue) (gcs : List EGreen)
    (anchor : Finset ℕ)
    (out : List PolyData × List EWhite × List EBlue × List EGreen)
    (hout : out = filterData sqrtA mode lat lon restored polys lines bcs gcs)
    (hmode : mode = "initial" ∨ mode = "expand") (hpolys : polys ≠ [])
    (hres : resolveAnchor sqrtA mode lat lon restored bcs gcs = some anchor)
    (hne : anchor ≠ ∅)
    (hint : ∀ gc ∈ gcs, ∃ wl ∈ lines, wl.wl.id = gc.gc.line_id) :
    ((∀ p ∈ out.1, p ∈ polys ∧ p.id ∈ anchor)
      ∧ (∀ w ∈ out.2.1, w.wl ∈ lines.map (fun x => x.wl))
      ∧ (∀ b ∈ out.2.2.1, b.id ∈ bcs.map (fun x => x.id))
      ∧ (∀ g ∈ out.2.2.2, g.gc ∈ gcs.map (fun x => x.gc))
      ∧ (∀ wl ∈ lines, ((∃ w ∈ out.2.1, w.wl.id = wl.wl.id) ↔
            ∃ p ∈ out.1, wl.wl.id ∈ p.boundary_white_lines))
      ∧ (∀ b ∈ out.2.2.1, ∃ w ∈ out.2.1,
            w.wl.startBC = some b.id ∨ w.wl.endBC = some b.id)
      ∧ (∀ g ∈ out.2.2.2, ∃ w ∈ out.2.1, w.wl.id = g.gc.line_id))
    ∧ (∀ (sq : ℚ → ℚ) (m : String) (la lo : ℚ) (r : List ℕ) (ps : List PolyData)
        (ls : List EWhite) (bs : List EBlue) (gs : List EGreen),
        (resolveAnchor sq m la lo r bs gs = none
          ∨ resolveAnchor sq m la lo r bs gs = some ∅) →
        filterData sq m la lo r ps ls bs gs = (ps, ls, bs, gs)) := by
  constructor
  · rw [hout, filterData_eq_applyFilter sqrtA mode lat lon restored polys lines bcs gcs
      anchor hmode hpolys hres hne]
    unfold applyFilter
    refine ⟨?_, ?_, ?_, ?_, ?_, ?_, ?_⟩
    · intro p hp
      rcases List.mem_filter.mp hp with ⟨hmem, hdec⟩
      exact ⟨hmem, by simpa using hdec⟩
    · intro w hw
      rcases List.mem_map.mp hw with ⟨wl, hwl, rfl⟩
      exact List.mem_map.mpr ⟨wl, (List.mem_filter.mp hwl).1, (updWl_wl _ wl).symm⟩
    · intro b hb
      rcases List.mem_map.mp hb with ⟨bc, hbc, rfl⟩
      exact List.mem_map.mpr ⟨bc, (List.mem_filter.mp hbc).1, (updBc_id _ _ bc).symm⟩
    · intro g hg
      rcases List.mem_map.mp hg with ⟨gc, hgc, rfl⟩
      exact List.mem_map.mpr ⟨gc, (List.mem_filter.mp hgc).1, (updGc_gc _ gc).symm⟩
    · intro wl hwl
      constructor
      · rintro ⟨w, hw, hid⟩
        rcases List.mem_map.mp hw with ⟨wl', hwl', rfl⟩
        have hvis : wl'.wl.id ∈ visLineIds anchor polys := by
          simpa using (List.mem_filter.mp hwl').2
        rw [updWl_wl] at hid
        rw [← hid]
        have := (foldl_bwlUnion_mem (filtPolys anchor polys) ∅ wl'.wl.id).mp hvis
        simpa using this
      · rintro ⟨p, hp, hx⟩
        refine ⟨updWl (filtPolyIds anchor polys) wl, List.mem_map.mpr ⟨wl, ?_, rfl⟩,
          by rw [updWl_wl]⟩
        refine List.mem_filter.mpr ⟨hwl, ?_⟩
        simp only [decide_eq_true_eq, visLineIds]
        exact (foldl_bwlUnion_mem (filtPolys anchor polys) ∅ wl.wl.id).mpr
          (Or.inr ⟨p, hp, hx⟩)
    · intro b hb
      rcases List.mem_map.mp hb with ⟨bc, hbc, rfl⟩
      have hvis : bc.id ∈ visBcIds anchor polys lines := by
        simpa using (List.mem_filter.mp hbc).2
      have := (foldl_bcIdInsert_mem (filtLines0 anchor polys lines) ∅ bc.id).mp hvis
      simp only [Finset.not_mem_empty, false_or] at this
      rcases this with ⟨wl, hwl, hend⟩
      exact ⟨updWl (filtPolyIds anchor polys) wl, List.mem_map.mpr ⟨wl, hwl, rfl⟩,
        by rw [updWl_wl, updBc_id]; exact hend⟩
    · intro g hg
      rcases List.mem_map.mp hg with ⟨gc, hgc, rfl⟩
      have hvis : gc.gc.line_id ∈ visLineIds anchor polys := by
        simpa using (List.mem_filter.mp hgc).2
      rcases hint gc (List.mem_filter.mp hgc).1 with ⟨wl, hwl, hid⟩
      refine ⟨updWl (filtPolyIds anchor polys) wl, List.mem_map.mpr ⟨wl, ?_, rfl⟩, ?_⟩
      · exact List.mem_filter.mpr ⟨hwl, by simpa [hid] using hvis⟩
      · rw [updWl_wl, updGc_gc]
        exact hid
  · intro sq m la lo r ps ls bs gs h
    unfold filterData
    split
    · rfl
    · rcases h with h | h <;> rw [h] <;> simp

/-- C3 witness: in `expand` mode at (0,0) the single blue circle anchors
polygon 1, which survives the filter and lies in the anchor set. -/
theorem claim_C3_witness :
    c3Poly ∈ (filterData (fun q => q) "expand" 0 0 [] [c3Poly] [c3Wl] [c3Bc] [c3Gc]).1
    ∧ c3Poly.id ∈ ({1} : Finset ℕ) := by
  have h := claim_C3 (fun q => q) "expand" 0 0 [] [c3Poly] [c3Wl] [c3Bc] [c3Gc] {1}
    (filterData (fun q => q) "expand" 0 0 [] [c3Poly] [c3Wl] [c3Bc] [c3Gc]) rfl
    (Or.inr rfl) (by decide) (by with_unfolding_all decide) (by decide) (by decide)
  have hmem : c3Poly ∈
      (filterData (fun q => q) "expand" 0 0 [] [c3Poly] [c3Wl] [c3Bc] [c3Gc]).1 := by
    with_unfolding_all decide
  exact ⟨hmem, (h.1.1 c3Poly hmem).2⟩

/-- C10. A mode other than `initial`/`expand`, or an empty polygon list, makes
`filter_data` return the four input collections unchanged. -/
theorem claim_C10 (sqrtA : ℚ → ℚ) (mode : String) (lat lon : ℚ) (restored : List ℕ)
    (polys : List PolyData) (lines : List EWhite) (bcs : List EBlue) (gcs : List EGreen)
    (h : (mode ≠ "initial" ∧ mode ≠ "expand") ∨ polys = []) :
    filterData sqrtA mode lat lon restored polys lines bcs gcs
      = (polys, lines, bcs, gcs) := by
  unfold filterData
  rw [if_pos h]

/-- C10 witness: mode `zoom` with a nonempty polygon list is a no-op. -/
theorem claim_C10_witness :
    filterData (fun q => q) "zoom" 0 0 [] [c10Poly] [] [] []
      = ([c10Poly], [], [], []) :=
  claim_C10 (fun q => q) "zoom" 0 0 [] [c10Poly] [] [] []
    (Or.inl ⟨by decide, by decide⟩)

end CrazyWalk
